import Mathlib

/-!
Shallow embedding of the temporal object tracker in `tracker_logic.py`
(classes `TrackedObject` and `ObjectManager`), together with the
configuration constants of `config.py`.

Modelling conventions:
* Python dicts (`self.entities`, `self.history`) are association lists
  `List (Nat × TrackedObject)` with insertion-order semantics (updating an
  existing key keeps its position, inserting a new key appends), matching
  CPython dict iteration order, which the algorithm observes.
* Wall-clock time (`time.time()`) is a single integer parameter `now`
  passed to `process`; all `time.time()` calls inside one `process` call
  happen within the same frame and are modelled by the same value.
* Euclidean centroid distances are handled exactly: `calculate_distance2`
  returns four times the squared distance as an integer, and every
  comparison `dist < r` of the source is rendered as
  `calculate_distance2 < 4*r^2`, which is equivalent for `r ≥ 0` since
  squaring is monotone on nonnegative reals.  Sorting by the squared
  distance agrees with sorting by the distance.
* The throttled JSON export is modelled by a `sink_ok` flag: the source's
  `try/except` around the file write swallows every exception and prints,
  so a failed write only sets the `write_failed` component of the result.
-/

namespace Tracker

/-- Axis-aligned bounding box `(x, y, w, h)`, origin top-left, pixel units. -/
structure Box where
  x : Int
  y : Int
  w : Int
  h : Int
deriving DecidableEq, Repr

/-- One per-frame detection produced by the external detector:
a dict `{'label': ..., 'box': ...}` in the source. -/
structure Detection where
  label : String
  box : Box
deriving DecidableEq, Repr

/-- State of class `TrackedObject` in `tracker_logic.py`:
`uid`, `label`, `box`, `start_time`, `last_seen_time`, `missing_frames`,
`active`.  The derived string `first_seen_str` is a pure rendering of
`start_time` and is not modelled separately. -/
structure TrackedObject where
  uid : Nat
  label : String
  box : Box
  start_time : Int
  last_seen_time : Int
  missing_frames : Nat
  active : Bool
deriving DecidableEq, Repr

/-- `TrackedObject.__init__`.  The source tests `if original_start_time:`,
which is Python truthiness: both `None` and `0` fall through to
`time.time()`; this is mirrored by the `Option` match and the `t ≠ 0`
test. -/
def TrackedObject.start (uid : Nat) (label : String) (box : Box)
    (original_start_time : Option Int) (now : Int) : TrackedObject :=
  { uid := uid
    label := label
    box := box
    start_time :=
      match original_start_time with
      | some t => if t ≠ 0 then t else now
      | none => now
    last_seen_time := now
    missing_frames := 0
    active := true }

/-- `TrackedObject.update`: called when the object was re-identified in the
current frame. -/
def TrackedObject.update (e : TrackedObject) (box : Box) (now : Int) :
    TrackedObject :=
  { e with box := box, last_seen_time := now, missing_frames := 0, active := true }

/-- `TrackedObject.mark_missing`: called when the object is temporarily
invisible. -/
def TrackedObject.mark_missing (e : TrackedObject) : TrackedObject :=
  { e with missing_frames := e.missing_frames + 1, active := false }

/-- The tracking-relevant constants of `config.py`, gathered in one record
so that theorems can quantify over them (the spec calls them the
configuration parameters supplied at construction).  Tolerances and
durations are `Int` so that the negative values discussed by the spec's
error-handling section are representable. -/
structure Config where
  memory_tolerance : Int
  border_margin : Int
  max_tracking_distance : Int
  history_duration : Int
  recovery_distance : Int
deriving DecidableEq, Repr

/-- The concrete values in `config.py`: `MEMORY_TOLERANCE = 10`,
`BORDER_MARGIN = 10`, `MAX_TRACKING_DISTANCE = 400`,
`HISTORY_DURATION = 5.0`, `RECOVERY_DISTANCE = 500`. -/
def defaultConfig : Config :=
  { memory_tolerance := 10
    border_margin := 10
    max_tracking_distance := 400
    history_duration := 5
    recovery_distance := 500 }

/-- An entity store: a Python dict `{uid: TrackedObject}` as an
insertion-ordered association list. -/
abbrev EMap := List (Nat × TrackedObject)

/-- The key list of a store, in iteration order (`list(d.keys())`). -/
def keysOf (l : EMap) : List Nat := l.map Prod.fst

/-- Dict lookup `d[k]` (first entry with the key; keys are kept nodup). -/
def lookupE : EMap → Nat → Option TrackedObject
  | [], _ => none
  | p :: rest, k => if p.1 = k then some p.2 else lookupE rest k

/-- Replace the value stored at key `k` by `f` of it (in place, keeping the
position), a no-op when the key is absent.  Models mutation of the object
stored in the dict. -/
def updAt : EMap → Nat → (TrackedObject → TrackedObject) → EMap
  | [], _, _ => []
  | p :: rest, k, f =>
      (if p.1 = k then (p.1, f p.2) else p) :: updAt rest k f

/-- Dict deletion `del d[k]`. -/
def derase : EMap → Nat → EMap
  | [], _ => []
  | p :: rest, k => if p.1 = k then derase rest k else p :: derase rest k

/-- Dict assignment `d[k] = v`: overwrite in place when the key exists,
append otherwise (CPython insertion-order semantics). -/
def dinsert (l : EMap) (k : Nat) (v : TrackedObject) : EMap :=
  if k ∈ keysOf l then updAt l k (fun _ => v) else l ++ [(k, v)]

/-- State of class `ObjectManager`: active store `entities`, memory store
`history`, the auto-increment `next_uid`, and the export throttle state.
The `json_path` plays no role in the tracking logic. -/
structure ObjectManager where
  entities : EMap
  history : EMap
  next_uid : Nat
  last_json_write : Int
  write_interval : Int
deriving DecidableEq, Repr

/-- `ObjectManager.__init__`: empty stores, `next_uid = 1`,
`last_json_write = 0`, `write_interval = 2.0`.  The configuration is
supplied at construction time (in the source, by importing the `config`
module constants); the constructor performs no validation of it and the
resulting state does not depend on it. -/
def ObjectManager.construct (cfg : Config) : ObjectManager :=
  let _ := cfg
  { entities := []
    history := []
    next_uid := 1
    last_json_write := 0
    write_interval := 2 }

/-- `ObjectManager.is_in_kill_zone`: the box touches or crosses the
configured border margin on any side. -/
def is_in_kill_zone (cfg : Config) (box : Box) (img_w img_h : Int) : Bool :=
  decide (box.x < cfg.border_margin) || decide (box.y < cfg.border_margin) ||
  decide (box.x + box.w > img_w - cfg.border_margin) ||
  decide (box.y + box.h > img_h - cfg.border_margin)

/-- `ObjectManager.calculate_distance`, exactly: four times the squared
Euclidean distance between the two box centroids
`(x + w/2, y + h/2)`, as an integer (the doubled centroid is
`(2x + w, 2y + h)`).  `dist < r` in the source corresponds to
`calculate_distance2 < 4*r^2` here. -/
def calculate_distance2 (box1 box2 : Box) : Int :=
  let c1x := 2 * box1.x + box1.w
  let c1y := 2 * box1.y + box1.h
  let c2x := 2 * box2.x + box2.w
  let c2y := 2 * box2.y + box2.h
  (c2x - c1x) ^ 2 + (c2y - c1y) ^ 2

/-- Step 1 of `process`: the `matches` list `(dist, uid, detection_index)`
built by the nested loops over `self.entities` (in insertion order) and
`enumerate(detected_objects)`, keeping same-label pairs with
`dist < MAX_TRACKING_DISTANCE`. -/
def buildMatches (cfg : Config) (entities : EMap) (dets : List Detection) :
    List (Int × Nat × Nat) :=
  entities.flatMap fun p =>
    dets.enum.filterMap fun q =>
      if p.2.label = q.2.label then
        if calculate_distance2 p.2.box q.2.box <
            4 * cfg.max_tracking_distance ^ 2 then
          some (calculate_distance2 p.2.box q.2.box, p.1, q.1)
        else none
      else none

/-- Insert into a list sorted ascending by the first component, after all
earlier elements of equal key (so the resulting sort is stable, as
Python's `list.sort` is). -/
def insertByDist (a : Int × Nat × Nat) :
    List (Int × Nat × Nat) → List (Int × Nat × Nat)
  | [] => [a]
  | b :: bs => if a.1 ≤ b.1 then a :: b :: bs else b :: insertByDist a bs

/-- `matches.sort(key=lambda x: x[0])`: a stable sort ascending by
distance.  Sorting by the (scaled) squared distance produces the same
order as sorting by the distance itself. -/
def sortByDist (l : List (Int × Nat × Nat)) : List (Int × Nat × Nat) :=
  l.foldr insertByDist []

/-- Fallback used to model `detected_objects[i]` at indices that are
always in range (the indices come from `enumerate`). -/
def defaultDet : Detection := ⟨"", ⟨0, 0, 0, 0⟩⟩

/-- Step 2 of `process`: the greedy assignment scan over the sorted
`matches` list, threading `(entities, matched_uids, matched_indices)`.
A pair is skipped when its uid or its detection index is already claimed;
otherwise the entity at that uid is updated with the detection's box. -/
def greedyLoop (dets : List Detection) (now : Int) :
    List (Int × Nat × Nat) → EMap × List Nat × List Nat →
    EMap × List Nat × List Nat
  | [], s => s
  | (_, uid, i) :: rest, (ents, mu, mi) =>
      if uid ∈ mu ∨ i ∈ mi then greedyLoop dets now rest (ents, mu, mi)
      else
        greedyLoop dets now rest
          (updAt ents uid (fun e => e.update (dets.getD i defaultDet).box now),
           uid :: mu, i :: mi)

/-- The inner search of Step 3: scan `self.history` in insertion order,
tracking the best (strictly smaller) distance seen so far, starting from
the bound `RECOVERY_DISTANCE`; return the uid of the winner if any.
Distances are compared via `calculate_distance2` against
`4 * recovery_distance^2`. -/
def findBestHistory (cfg : Config) (history : EMap) (new_label : String)
    (new_box : Box) : Option Nat :=
  (history.foldl
    (fun acc p =>
      if p.2.label ≠ new_label then acc
      else
        if calculate_distance2 p.2.box new_box < acc.2 then
          (some p.1, calculate_distance2 p.2.box new_box)
        else acc)
    ((none : Option Nat), 4 * cfg.recovery_distance ^ 2)).1

/-- Intermediate state threaded through Step 3. -/
structure Step3State where
  entities : EMap
  history : EMap
  next_uid : Nat
deriving DecidableEq, Repr

/-- Step 3 of `process` for a single unclaimed detection: resurrect the
best memory entity within `RECOVERY_DISTANCE` (pop it from `history`,
re-create a `TrackedObject` with the old uid and the old `start_time`,
store it back in `entities` under the old uid), or, if none is found,
allocate a fresh entity under `next_uid` and increment the counter. -/
def step3once (cfg : Config) (now : Int) (s : Step3State) (obj : Detection) :
    Step3State :=
  match findBestHistory cfg s.history obj.label obj.box with
  | some h_uid =>
      match lookupE s.history h_uid with
      | some old_entity =>
          { s with
            history := derase s.history h_uid
            entities := dinsert s.entities h_uid
              (TrackedObject.start old_entity.uid obj.label obj.box
                (some old_entity.start_time) now) }
      | none => s
  | none =>
      { entities := dinsert s.entities s.next_uid
          (TrackedObject.start s.next_uid obj.label obj.box none now)
        history := s.history
        next_uid := s.next_uid + 1 }

/-- Step 3 of `process`: fold `step3once` over the enumerated detections,
skipping the indices claimed in Step 2. -/
def step3 (cfg : Config) (now : Int) (mi : List Nat) :
    List (Nat × Detection) → Step3State → Step3State
  | [], s => s
  | q :: rest, s =>
      step3 cfg now mi rest (if q.1 ∈ mi then s else step3once cfg now s q.2)

/-- Step 4 of `process`, first half: walk the snapshot of current active
uids; every uid not matched in Step 2 is marked missing in place, and a
disposal code `(uid, keep_in_history)` is appended when it is in the kill
zone (`keep = false`) or its missing counter strictly exceeds the memory
tolerance (`keep = true`). -/
def step4loop (cfg : Config) (mu : List Nat) (img_w img_h : Int) :
    List Nat → EMap × List (Nat × Bool) → EMap × List (Nat × Bool)
  | [], s => s
  | uid :: rest, (ents, codes) =>
      if uid ∈ mu then step4loop cfg mu img_w img_h rest (ents, codes)
      else
        match lookupE ents uid with
        | none => step4loop cfg mu img_w img_h rest (ents, codes)
        | some entity =>
            let e := entity.mark_missing
            let ents' := updAt ents uid (fun _ => e)
            let codes' :=
              if is_in_kill_zone cfg e.box img_w img_h then
                codes ++ [(uid, false)]
              else if (e.missing_frames : Int) > cfg.memory_tolerance then
                codes ++ [(uid, true)]
              else codes
            step4loop cfg mu img_w img_h rest (ents', codes')

/-- Step 4 of `process`, second half: execute the disposal codes — move
the entity to `history` when `keep` is true, then delete it from
`entities` in either case. -/
def step4apply : List (Nat × Bool) → EMap × EMap → EMap × EMap
  | [], s => s
  | (uid, keep) :: rest, (ents, hist) =>
      let hist' :=
        if keep then
          match lookupE ents uid with
          | some e => dinsert hist uid e
          | none => hist
        else hist
      step4apply rest (derase ents uid, hist')

/-- Step 5 of `process`: garbage-collect every memory entity whose
`now - last_seen_time` strictly exceeds `HISTORY_DURATION`. -/
def step5 (cfg : Config) (now : Int) (hist : EMap) : EMap :=
  hist.filter fun p => !(decide (now - p.2.last_seen_time > cfg.history_duration))

/-- One record of the JSON status export.  `duration` renders
`now - start_time` as floor-divided minutes and the floor remainder in
seconds, as `get_duration_string` does; `timestamp` is the creation time
rendered by `first_seen_str`. -/
structure JsonRecord where
  internal_id : Nat
  class_label : String
  duration_minutes : Int
  duration_seconds : Int
  timestamp : Int
  status : String
deriving DecidableEq, Repr

/-- Build the export record for one active entry, as the Step-6 loop
does. -/
def mkJsonRecord (now : Int) (p : Nat × TrackedObject) : JsonRecord :=
  { internal_id := p.1
    class_label := p.2.label
    duration_minutes := Int.fdiv (now - p.2.start_time) 60
    duration_seconds := Int.fmod (now - p.2.start_time) 60
    timestamp := p.2.start_time
    status := if p.2.active then "LIVE" else "MEMORY" }

/-- Steps 1–5 of `process`: the pure tracking core, returning the new
active store, the new memory store and the new uid counter. -/
def trackerCore (cfg : Config) (st : ObjectManager) (dets : List Detection)
    (img_w img_h : Int) (now : Int) : EMap × EMap × Nat :=
  let m := greedyLoop dets now (sortByDist (buildMatches cfg st.entities dets))
    (st.entities, [], [])
  let s3 := step3 cfg now m.2.2 dets.enum ⟨m.1, st.history, st.next_uid⟩
  let r4 := step4loop cfg m.2.1 img_w img_h (keysOf s3.entities) (s3.entities, [])
  let s4 := step4apply r4.2 (r4.1, s3.history)
  (s4.1, step5 cfg now s4.2, s3.next_uid)

/-- Result of one `process` call: the new manager state, the returned
mapping (`return self.entities`), the export attempt (the serialized
records, `none` when the throttle skipped the export this frame), and
whether the attempted write failed and was logged by the `except` branch
of `write_json`. -/
structure ProcessResult where
  state : ObjectManager
  ret : EMap
  write_attempt : Option (List JsonRecord)
  write_failed : Bool
deriving DecidableEq, Repr

/-- `ObjectManager.process(detected_objects, img_w, img_h)`.  `now` is the
`current_time` of the call; `sink_ok` tells whether the underlying file
write of Step 6 would succeed (the source catches any write exception,
prints, and continues). -/
def process (cfg : Config) (st : ObjectManager) (dets : List Detection)
    (img_w img_h : Int) (now : Int) (sink_ok : Bool) : ProcessResult :=
  if now - st.last_json_write > st.write_interval then
    { state :=
        { st with
          entities := (trackerCore cfg st dets img_w img_h now).1
          history := (trackerCore cfg st dets img_w img_h now).2.1
          next_uid := (trackerCore cfg st dets img_w img_h now).2.2
          last_json_write := now }
      ret := (trackerCore cfg st dets img_w img_h now).1
      write_attempt :=
        some ((trackerCore cfg st dets img_w img_h now).1.map (mkJsonRecord now))
      write_failed := !sink_ok }
  else
    { state :=
        { st with
          entities := (trackerCore cfg st dets img_w img_h now).1
          history := (trackerCore cfg st dets img_w img_h now).2.1
          next_uid := (trackerCore cfg st dets img_w img_h now).2.2 }
      ret := (trackerCore cfg st dets img_w img_h now).1
      write_attempt := none
      write_failed := false }

/-- One frame of input to `process`, for stating properties of call
sequences. -/
structure FrameInput where
  dets : List Detection
  img_w : Int
  img_h : Int
  now : Int
  sink_ok : Bool
deriving Repr

/-- Run `process` over a sequence of frames, threading the state. -/
def runFrames (cfg : Config) : ObjectManager → List FrameInput → ObjectManager
  | st, [] => st
  | st, fi :: rest =>
      runFrames cfg
        (process cfg st fi.dets fi.img_w fi.img_h fi.now fi.sink_ok).state rest

/-- Look a uid up across both stores, active store first.  Under the
disjointness invariant a uid lives in at most one store, so this is the
entity currently associated with the uid, if any. -/
def lookupBoth (ents hist : EMap) (k : Nat) : Option TrackedObject :=
  match lookupE ents k with
  | some e => some e
  | none => lookupE hist k

/-- The data-model invariants of the tracker state: no duplicate keys in
either store, the two key sets are disjoint, every entity is stored under
its own uid, and every key is below the auto-increment counter. -/
def StoreInv (ents hist : EMap) (nuid : Nat) : Prop :=
  (keysOf ents).Nodup ∧ (keysOf hist).Nodup ∧
  (∀ k ∈ keysOf ents, k ∉ keysOf hist) ∧
  (∀ p ∈ ents, (p.2 : TrackedObject).uid = p.1) ∧
  (∀ p ∈ hist, (p.2 : TrackedObject).uid = p.1) ∧
  (∀ k ∈ keysOf ents, k < nuid) ∧
  (∀ k ∈ keysOf hist, k < nuid)

/-- The invariants, read off an `ObjectManager` state. -/
def Inv (st : ObjectManager) : Prop :=
  StoreInv st.entities st.history st.next_uid

instance (ents hist : EMap) (nuid : Nat) :
    Decidable (StoreInv ents hist nuid) := by
  unfold StoreInv
  infer_instance

instance (st : ObjectManager) : Decidable (Inv st) := by
  unfold Inv
  infer_instance

/-- The set `matched_uids` produced by Steps 1–2 of `process` on the given
active store and detections. -/
def matchedUids (cfg : Config) (ents : EMap) (dets : List Detection)
    (now : Int) : List Nat :=
  (greedyLoop dets now (sortByDist (buildMatches cfg ents dets))
    (ents, [], [])).2.1

/-- The `(uid, detection_index)` pairs accepted by the greedy scan of
Step 2, read off the same recursion as `greedyLoop`: a pair is accepted
iff neither its uid nor its index was claimed earlier. -/
def acceptedPairs : List (Int × Nat × Nat) → List Nat → List Nat →
    List (Nat × Nat)
  | [], _, _ => []
  | (_, uid, i) :: rest, mu, mi =>
      if uid ∈ mu ∨ i ∈ mi then acceptedPairs rest mu mi
      else (uid, i) :: acceptedPairs rest (uid :: mu) (i :: mi)

/-! ### Reference greedy matching, modelled from the spec's words

The spec describes Step 1/Step 2 as: "For every (active entity, detection)
pair with equal `label`, compute the Euclidean distance between box
centroids: `centroid(b) = (b.x + b.w/2, b.y + b.h/2)`.  Retain the pair
only if `distance < MAX_TRACKING_DISTANCE`.  Sort all retained candidate
pairs ascending by distance.  Scan once; accept a pair iff neither the
entity nor the detection has already been claimed by an earlier accepted
pair."  Centroids are rational; `distance < M` is rendered as
`distance² < M²`, equivalent for the nonnegative Euclidean distance and a
positive gate, and sorting ascending by `distance²` orders pairs exactly
as sorting by `distance` does. -/

/-- Modelled from the spec: the rational centroid
`(b.x + b.w/2, b.y + b.h/2)` of a box. -/
def qcentroid (b : Box) : ℚ × ℚ :=
  ((b.x : ℚ) + (b.w : ℚ) / 2, (b.y : ℚ) + (b.h : ℚ) / 2)

/-- Modelled from the spec: the squared Euclidean distance between the two
box centroids, as a rational. -/
def qdistSq (b1 b2 : Box) : ℚ :=
  ((qcentroid b2).1 - (qcentroid b1).1) ^ 2 +
  ((qcentroid b2).2 - (qcentroid b1).2) ^ 2

/-- Modelled from the spec: every (active entity, detection) pair with
equal label whose centroid distance is strictly below the tracking gate,
tagged with its squared distance. -/
def specCandidates (cfg : Config) (entities : EMap) (dets : List Detection) :
    List (ℚ × Nat × Nat) :=
  entities.flatMap fun p =>
    dets.enum.filterMap fun q =>
      if p.2.label = q.2.label ∧
          qdistSq p.2.box q.2.box < (cfg.max_tracking_distance : ℚ) ^ 2 then
        some (qdistSq p.2.box q.2.box, p.1, q.1)
      else none

/-- Stable insertion for the spec-side sort ascending by distance. -/
def insertByQDist (a : ℚ × Nat × Nat) :
    List (ℚ × Nat × Nat) → List (ℚ × Nat × Nat)
  | [] => [a]
  | b :: bs => if a.1 ≤ b.1 then a :: b :: bs else b :: insertByQDist a bs

/-- Modelled from the spec: sort the candidate pairs ascending by
distance (stable). -/
def sortByQDist (l : List (ℚ × Nat × Nat)) : List (ℚ × Nat × Nat) :=
  l.foldr insertByQDist []

/-- Modelled from the spec: the single scan accepting a pair iff neither
its entity nor its detection was claimed by an earlier accepted pair. -/
def specScan : List (ℚ × Nat × Nat) → List Nat → List Nat → List (Nat × Nat)
  | [], _, _ => []
  | (_, uid, i) :: rest, cu, ci =>
      if uid ∈ cu ∨ i ∈ ci then specScan rest cu ci
      else (uid, i) :: specScan rest (uid :: cu) (i :: ci)

/-- Modelled from the spec: the reference greedy matching — candidate
generation, stable sort ascending by distance, one claiming scan. -/
def specGreedyMatch (cfg : Config) (entities : EMap)
    (dets : List Detection) : List (Nat × Nat) :=
  specScan (sortByQDist (specCandidates cfg entities dets)) [] []

/-- The entity-store effect of one accepted match of Step 2: the matched
entity is updated in place with the detection's box. -/
def applyMatch (dets : List Detection) (now : Int) (es : EMap)
    (q : Nat × Nat) : EMap :=
  updAt es q.1 fun e => e.update (dets.getD q.2 defaultDet).box now

/-! ### Concrete fixtures used by the claim witnesses and counterexamples -/

/-- Fixture: a tracked "cup" at box (500, 500, 50, 50), fully matched. -/
def cupEntity : TrackedObject :=
  { uid := 1, label := "cup"
    box := { x := 500, y := 500, w := 50, h := 50 }
    start_time := 10, last_seen_time := 10
    missing_frames := 0, active := true }

/-- Fixture: a tracker state holding only `cupEntity` under uid 1. -/
def cupState : ObjectManager :=
  { entities := [(1, cupEntity)], history := [], next_uid := 2
    last_json_write := 0, write_interval := 2 }

/-- Fixture: an empty frame (no detections) at time 11. -/
def emptyFrame : FrameInput :=
  { dets := [], img_w := 1920, img_h := 1080, now := 11, sink_ok := true }

/-- Fixture: an entity hugging the top-left corner — inside the kill zone
for `BORDER_MARGIN = 10`. -/
def edgeEntity : TrackedObject :=
  { uid := 1, label := "cup"
    box := { x := 2, y := 2, w := 30, h := 30 }
    start_time := 3, last_seen_time := 3
    missing_frames := 0, active := true }

/-- Fixture: a tracker state holding only `edgeEntity` under uid 1. -/
def edgeState : ObjectManager :=
  { entities := [(1, edgeEntity)], history := [], next_uid := 2
    last_json_write := 0, write_interval := 2 }

/-- Fixture: a memory entity last seen at time 20 — expired relative to
`now = 100` and `HISTORY_DURATION = 5`. -/
def staleMemoryEntity : TrackedObject :=
  { uid := 3, label := "cup"
    box := { x := 500, y := 500, w := 50, h := 50 }
    start_time := 10, last_seen_time := 20
    missing_frames := 11, active := false }

/-- Fixture: a tracker state whose memory holds only `staleMemoryEntity`. -/
def staleMemoryState : ObjectManager :=
  { entities := [], history := [(3, staleMemoryEntity)], next_uid := 4
    last_json_write := 100, write_interval := 2 }

/-- Fixture: an invalid configuration in the spec's sense —
`recovery_distance = 300` is below `max_tracking_distance = 400` and the
memory tolerance is negative. -/
def invalidConfig : Config :=
  { memory_tolerance := -1, border_margin := 10
    max_tracking_distance := 400, history_duration := 5
    recovery_distance := 300 }

/-- Fixture: a "cup" detection at (500, 500, 50, 50). -/
def cupDetection : Detection :=
  { label := "cup", box := { x := 500, y := 500, w := 50, h := 50 } }

/-- Fixture: a "cup" detection 10 pixels to the right of `cupEntity`. -/
def nearCupDetection : Detection :=
  { label := "cup", box := { x := 510, y := 500, w := 50, h := 50 } }

/-! ### Basic lemmas about the store operations -/

theorem keysOf_nil : keysOf [] = [] := rfl

theorem keysOf_cons (p : Nat × TrackedObject) (l : EMap) :
    keysOf (p :: l) = p.1 :: keysOf l := rfl

theorem lookupE_eq_none (l : EMap) (k : Nat) (h : k ∉ keysOf l) :
    lookupE l k = none := by
  induction l with
  | nil => rfl
  | cons p rest ih =>
      rw [keysOf_cons, List.mem_cons] at h
      push_neg at h
      rw [lookupE, if_neg (fun hh => h.1 hh.symm), ih h.2]

theorem lookupE_isSome_of_mem (l : EMap) (k : Nat) (h : k ∈ keysOf l) :
    (lookupE l k).isSome := by
  induction l with
  | nil => simp [keysOf] at h
  | cons p rest ih =>
      rw [lookupE]
      by_cases hk : p.1 = k
      · simp [hk]
      · rw [if_neg hk]
        rw [keysOf_cons, List.mem_cons] at h
        exact ih (h.resolve_left fun hh => hk hh.symm)

theorem mem_keysOf_of_lookupE (l : EMap) (k : Nat) (e : TrackedObject)
    (h : lookupE l k = some e) : k ∈ keysOf l := by
  induction l with
  | nil => simp [lookupE] at h
  | cons p rest ih =>
      rw [lookupE] at h
      by_cases hk : p.1 = k
      · rw [keysOf_cons, hk]; exact List.mem_cons_self _ _
      · rw [if_neg hk] at h
        rw [keysOf_cons]
        exact List.mem_cons_of_mem _ (ih h)

theorem lookupE_mem (l : EMap) (k : Nat) (e : TrackedObject)
    (h : lookupE l k = some e) : (k, e) ∈ l := by
  induction l with
  | nil => simp [lookupE] at h
  | cons p rest ih =>
      rw [lookupE] at h
      by_cases hk : p.1 = k
      · rw [if_pos hk] at h
        have hp : p = (k, e) := Prod.ext hk (by injection h)
        rw [← hp]
        exact List.mem_cons_self _ _
      · rw [if_neg hk] at h
        exact List.mem_cons_of_mem _ (ih h)

theorem keysOf_updAt (l : EMap) (k : Nat) (f : TrackedObject → TrackedObject) :
    keysOf (updAt l k f) = keysOf l := by
  induction l with
  | nil => rfl
  | cons p rest ih =>
      rw [updAt, keysOf_cons, keysOf_cons, ih]
      by_cases hk : p.1 = k
      · rw [if_pos hk]
      · rw [if_neg hk]

theorem lookupE_updAt_self (l : EMap) (k : Nat)
    (f : TrackedObject → TrackedObject) :
    lookupE (updAt l k f) k = (lookupE l k).map f := by
  induction l with
  | nil => rfl
  | cons p rest ih =>
      by_cases hk : p.1 = k
      · simp [updAt, lookupE, hk]
      · simp [updAt, lookupE, hk, ih]

theorem lookupE_updAt_ne (l : EMap) (k j : Nat)
    (f : TrackedObject → TrackedObject) (h : j ≠ k) :
    lookupE (updAt l k f) j = lookupE l j := by
  induction l with
  | nil => rfl
  | cons p rest ih =>
      by_cases hk : p.1 = k
      · have hkj : ¬(k = j) := fun hh => h hh.symm
        simp [updAt, lookupE, hk, hkj, ih]
      · simp [updAt, lookupE, hk, ih]

theorem not_mem_keysOf_derase (l : EMap) (k : Nat) :
    k ∉ keysOf (derase l k) := by
  induction l with
  | nil => simp [derase, keysOf]
  | cons p rest ih =>
      rw [derase]
      by_cases hk : p.1 = k
      · rw [if_pos hk]; exact ih
      · rw [if_neg hk, keysOf_cons]
        intro h
        rcases List.mem_cons.mp h with h | h
        · exact hk h.symm
        · exact ih h

theorem lookupE_derase_ne (l : EMap) (k j : Nat) (h : j ≠ k) :
    lookupE (derase l k) j = lookupE l j := by
  induction l with
  | nil => rfl
  | cons p rest ih =>
      by_cases hk : p.1 = k
      · have hkj : ¬(k = j) := fun hh => h hh.symm
        simp [derase, lookupE, hk, hkj, ih]
      · simp [derase, lookupE, hk, ih]

theorem keysOf_derase_sublist (l : EMap) (k : Nat) :
    (keysOf (derase l k)).Sublist (keysOf l) := by
  induction l with
  | nil => simp [derase]
  | cons p rest ih =>
      rw [derase]
      by_cases hk : p.1 = k
      · rw [if_pos hk, keysOf_cons]
        exact ih.cons _
      · rw [if_neg hk, keysOf_cons, keysOf_cons]
        exact ih.cons₂ _

theorem mem_keysOf_derase (l : EMap) (k j : Nat) (h : j ∈ keysOf (derase l k)) :
    j ∈ keysOf l :=
  (keysOf_derase_sublist l k).mem h

theorem nodup_keysOf_derase (l : EMap) (k : Nat) (h : (keysOf l).Nodup) :
    (keysOf (derase l k)).Nodup :=
  (keysOf_derase_sublist l k).nodup h

theorem keysOf_append (l l' : EMap) :
    keysOf (l ++ l') = keysOf l ++ keysOf l' := by
  simp [keysOf]

theorem lookupE_append_right (l l' : EMap) (k : Nat) (h : k ∉ keysOf l) :
    lookupE (l ++ l') k = lookupE l' k := by
  induction l with
  | nil => rfl
  | cons p rest ih =>
      rw [keysOf_cons, List.mem_cons] at h
      push_neg at h
      rw [List.cons_append, lookupE, if_neg (fun hh => h.1 hh.symm), ih h.2]

theorem lookupE_append_left (l l' : EMap) (k : Nat) (h : k ∈ keysOf l) :
    lookupE (l ++ l') k = lookupE l k := by
  induction l with
  | nil => simp [keysOf] at h
  | cons p rest ih =>
      rw [List.cons_append, lookupE, lookupE]
      by_cases hk : p.1 = k
      · rw [if_pos hk, if_pos hk]
      · rw [if_neg hk, if_neg hk]
        rw [keysOf_cons, List.mem_cons] at h
        exact ih (h.resolve_left fun hh => hk hh.symm)

theorem lookupE_dinsert_self (l : EMap) (k : Nat) (v : TrackedObject) :
    lookupE (dinsert l k v) k = some v := by
  rw [dinsert]
  by_cases h : k ∈ keysOf l
  · rw [if_pos h, lookupE_updAt_self]
    obtain ⟨e, he⟩ := Option.isSome_iff_exists.mp (lookupE_isSome_of_mem l k h)
    rw [he]; rfl
  · rw [if_neg h, lookupE_append_right _ _ _ h, lookupE, if_pos rfl]

theorem lookupE_dinsert_ne (l : EMap) (k j : Nat) (v : TrackedObject)
    (h : j ≠ k) : lookupE (dinsert l k v) j = lookupE l j := by
  rw [dinsert]
  by_cases hm : k ∈ keysOf l
  · rw [if_pos hm, lookupE_updAt_ne _ _ _ _ h]
  · rw [if_neg hm]
    by_cases hj : j ∈ keysOf l
    · exact lookupE_append_left _ _ _ hj
    · rw [lookupE_append_right _ _ _ hj, lookupE_eq_none _ _ hj, lookupE,
        if_neg (fun hh => h hh.symm)]
      rfl

theorem keysOf_dinsert_mem (l : EMap) (k : Nat) (v : TrackedObject)
    (h : k ∈ keysOf l) : keysOf (dinsert l k v) = keysOf l := by
  rw [dinsert, if_pos h, keysOf_updAt]

theorem keysOf_dinsert_not_mem (l : EMap) (k : Nat) (v : TrackedObject)
    (h : k ∉ keysOf l) : keysOf (dinsert l k v) = keysOf l ++ [k] := by
  rw [dinsert, if_neg h, keysOf_append]
  rfl

theorem mem_keysOf_dinsert (l : EMap) (k j : Nat) (v : TrackedObject) :
    j ∈ keysOf (dinsert l k v) ↔ j ∈ keysOf l ∨ j = k := by
  by_cases h : k ∈ keysOf l
  · rw [keysOf_dinsert_mem _ _ _ h]
    constructor
    · exact Or.inl
    · rintro (hj | rfl)
      · exact hj
      · exact h
  · rw [keysOf_dinsert_not_mem _ _ _ h]
    simp

theorem nodup_keysOf_dinsert (l : EMap) (k : Nat) (v : TrackedObject)
    (h : (keysOf l).Nodup) : (keysOf (dinsert l k v)).Nodup := by
  by_cases hm : k ∈ keysOf l
  · rw [keysOf_dinsert_mem _ _ _ hm]; exact h
  · rw [keysOf_dinsert_not_mem _ _ _ hm]
    simpa [List.nodup_append] using ⟨h, hm⟩

theorem mem_updAt (l : EMap) (k : Nat) (f : TrackedObject → TrackedObject)
    (p : Nat × TrackedObject) (h : p ∈ updAt l k f) :
    p ∈ l ∨ ∃ q ∈ l, q.1 = k ∧ p = (q.1, f q.2) := by
  induction l with
  | nil => simp [updAt] at h
  | cons q rest ih =>
      rw [updAt] at h
      rcases List.mem_cons.mp h with h | h
      · by_cases hk : q.1 = k
        · rw [if_pos hk] at h
          exact Or.inr ⟨q, List.mem_cons_self _ _, hk, h⟩
        · rw [if_neg hk] at h
          exact Or.inl (h ▸ List.mem_cons_self _ _)
      · rcases ih h with h | ⟨r, hr, hrk, hp⟩
        · exact Or.inl (List.mem_cons_of_mem _ h)
        · exact Or.inr ⟨r, List.mem_cons_of_mem _ hr, hrk, hp⟩

theorem uidField_updAt (l : EMap) (k : Nat) (f : TrackedObject → TrackedObject)
    (hf : ∀ e, (f e).uid = e.uid)
    (h : ∀ p ∈ l, (p.2 : TrackedObject).uid = p.1) :
    ∀ p ∈ updAt l k f, (p.2 : TrackedObject).uid = p.1 := by
  intro p hp
  rcases mem_updAt _ _ _ _ hp with hp | ⟨q, hq, hqk, rfl⟩
  · exact h p hp
  · simpa [hf] using h q hq

theorem mem_derase (l : EMap) (k : Nat) (p : Nat × TrackedObject)
    (h : p ∈ derase l k) : p ∈ l := by
  induction l with
  | nil => simp [derase] at h
  | cons q rest ih =>
      rw [derase] at h
      by_cases hk : q.1 = k
      · rw [if_pos hk] at h
        exact List.mem_cons_of_mem _ (ih h)
      · rw [if_neg hk] at h
        rcases List.mem_cons.mp h with h | h
        · exact h ▸ List.mem_cons_self _ _
        · exact List.mem_cons_of_mem _ (ih h)

theorem mem_dinsert (l : EMap) (k : Nat) (v : TrackedObject)
    (p : Nat × TrackedObject) (h : p ∈ dinsert l k v) : p ∈ l ∨ p = (k, v) := by
  rw [dinsert] at h
  by_cases hm : k ∈ keysOf l
  · rw [if_pos hm] at h
    rcases mem_updAt _ _ _ _ h with h | ⟨q, hq, hqk, hp⟩
    · exact Or.inl h
    · exact Or.inr (by rw [hp, hqk])
  · rw [if_neg hm] at h
    rcases List.mem_append.mp h with h | h
    · exact Or.inl h
    · exact Or.inr (by simpa using h)

/-! ### Lemmas about Steps 1–2 (greedy matching) -/

theorem greedyLoop_keysOf (dets : List Detection) (now : Int)
    (l : List (Int × Nat × Nat)) :
    ∀ (ents : EMap) (mu mi : List Nat),
      keysOf (greedyLoop dets now l (ents, mu, mi)).1 = keysOf ents := by
  induction l with
  | nil => intro ents mu mi; rfl
  | cons a rest ih =>
      intro ents mu mi
      obtain ⟨d, uid, i⟩ := a
      rw [greedyLoop]
      by_cases hc : uid ∈ mu ∨ i ∈ mi
      · rw [if_pos hc]; exact ih ents mu mi
      · rw [if_neg hc, ih, keysOf_updAt]

theorem greedyLoop_mu_mono (dets : List Detection) (now : Int)
    (l : List (Int × Nat × Nat)) :
    ∀ (ents : EMap) (mu mi : List Nat) (u : Nat), u ∈ mu →
      u ∈ (greedyLoop dets now l (ents, mu, mi)).2.1 := by
  induction l with
  | nil => intro ents mu mi u hu; exact hu
  | cons a rest ih =>
      intro ents mu mi u hu
      obtain ⟨d, uid, i⟩ := a
      rw [greedyLoop]
      by_cases hc : uid ∈ mu ∨ i ∈ mi
      · rw [if_pos hc]; exact ih ents mu mi u hu
      · rw [if_neg hc]
        exact ih _ _ _ u (List.mem_cons_of_mem _ hu)

theorem greedyLoop_unmatched (dets : List Detection) (now : Int)
    (l : List (Int × Nat × Nat)) :
    ∀ (ents : EMap) (mu mi : List Nat) (u : Nat),
      u ∉ (greedyLoop dets now l (ents, mu, mi)).2.1 →
      lookupE (greedyLoop dets now l (ents, mu, mi)).1 u = lookupE ents u := by
  induction l with
  | nil => intro ents mu mi u _; rfl
  | cons a rest ih =>
      intro ents mu mi u hu
      obtain ⟨d, uid, i⟩ := a
      rw [greedyLoop] at hu ⊢
      by_cases hc : uid ∈ mu ∨ i ∈ mi
      · rw [if_pos hc] at hu ⊢; exact ih ents mu mi u hu
      · rw [if_neg hc] at hu ⊢
        have hne : u ≠ uid := by
          intro h
          subst h
          exact hu (greedyLoop_mu_mono dets now rest _ _ _ u
            (List.mem_cons_self _ _))
        rw [ih _ _ _ u hu, lookupE_updAt_ne _ _ _ _ hne]

theorem greedyLoop_sim (dets : List Detection) (now : Int)
    (l : List (Int × Nat × Nat)) :
    ∀ (ents : EMap) (mu mi : List Nat) (k : Nat) (e' : TrackedObject),
      lookupE (greedyLoop dets now l (ents, mu, mi)).1 k = some e' →
      ∃ e, lookupE ents k = some e ∧
        (e' = e ∨ ∃ b, e' = e.update b now) := by
  induction l with
  | nil => intro ents mu mi k e' h; exact ⟨e', h, Or.inl rfl⟩
  | cons a rest ih =>
      intro ents mu mi k e' h
      obtain ⟨d, uid, i⟩ := a
      rw [greedyLoop] at h
      by_cases hc : uid ∈ mu ∨ i ∈ mi
      · rw [if_pos hc] at h; exact ih ents mu mi k e' h
      · rw [if_neg hc] at h
        obtain ⟨e₁, he₁, hcase⟩ := ih _ _ _ k e' h
        by_cases hk : k = uid
        · subst hk
          rw [lookupE_updAt_self] at he₁
          cases hl : lookupE ents k with
          | none => rw [hl] at he₁; simp at he₁
          | some e₀ =>
              rw [hl] at he₁
              refine ⟨e₀, rfl, Or.inr ?_⟩
              have he₁' : e₁ = e₀.update (dets.getD i defaultDet).box now := by
                injection he₁ with hh
                exact hh.symm
              rcases hcase with rfl | ⟨b, rfl⟩
              · exact ⟨_, he₁'⟩
              · exact ⟨b, by rw [he₁']; rfl⟩
        · rw [lookupE_updAt_ne _ _ _ _ hk] at he₁
          exact ⟨e₁, he₁, hcase⟩

theorem greedyLoop_uidField (dets : List Detection) (now : Int)
    (l : List (Int × Nat × Nat)) :
    ∀ (ents : EMap) (mu mi : List Nat),
      (∀ p ∈ ents, (p.2 : TrackedObject).uid = p.1) →
      ∀ p ∈ (greedyLoop dets now l (ents, mu, mi)).1,
        (p.2 : TrackedObject).uid = p.1 := by
  induction l with
  | nil => intro ents mu mi h; exact h
  | cons a rest ih =>
      intro ents mu mi h
      obtain ⟨d, uid, i⟩ := a
      rw [greedyLoop]
      by_cases hc : uid ∈ mu ∨ i ∈ mi
      · rw [if_pos hc]; exact ih ents mu mi h
      · rw [if_neg hc]
        exact ih _ _ _ (uidField_updAt _ _ _ (fun e => rfl) h)

theorem greedyLoop_eq_foldl (dets : List Detection) (now : Int)
    (l : List (Int × Nat × Nat)) :
    ∀ (ents : EMap) (mu mi : List Nat),
      (greedyLoop dets now l (ents, mu, mi)).1 =
        (acceptedPairs l mu mi).foldl (applyMatch dets now) ents := by
  induction l with
  | nil => intro ents mu mi; rfl
  | cons a rest ih =>
      intro ents mu mi
      obtain ⟨d, uid, i⟩ := a
      rw [greedyLoop, acceptedPairs]
      by_cases hc : uid ∈ mu ∨ i ∈ mi
      · rw [if_pos hc, if_pos hc]; exact ih ents mu mi
      · rw [if_neg hc, if_neg hc, List.foldl_cons]
        exact ih _ _ _

/-! ### The reference greedy procedure agrees with the code's Steps 1–2 -/

theorem calculate_distance2_cast (b1 b2 : Box) :
    ((calculate_distance2 b1 b2 : Int) : ℚ) = 4 * qdistSq b1 b2 := by
  rw [calculate_distance2, qdistSq, qcentroid, qcentroid]
  push_cast
  ring

/-- Projection from the code-side candidate tuples (scaled integer squared
distances) to the spec-side ones (rational squared distances). -/
theorem specCandidates_eq_map (cfg : Config) (ents : EMap)
    (dets : List Detection) :
    specCandidates cfg ents dets =
      (buildMatches cfg ents dets).map
        (fun t => ((t.1 : ℚ) / 4, t.2.1, t.2.2)) := by
  rw [specCandidates, buildMatches, List.map_flatMap]
  refine List.flatMap_congr fun p _ => ?_
  rw [List.map_filterMap]
  refine List.filterMap_congr fun q _ => ?_
  dsimp only
  have hgate : qdistSq p.2.box q.2.box < (cfg.max_tracking_distance : ℚ) ^ 2 ↔
      calculate_distance2 p.2.box q.2.box <
        4 * cfg.max_tracking_distance ^ 2 := by
    constructor
    · intro hq
      have hc : ((calculate_distance2 p.2.box q.2.box : Int) : ℚ) <
          ((4 * cfg.max_tracking_distance ^ 2 : Int) : ℚ) := by
        rw [calculate_distance2_cast]
        push_cast
        linarith
      exact_mod_cast hc
    · intro hd
      have hc : ((calculate_distance2 p.2.box q.2.box : Int) : ℚ) <
          ((4 * cfg.max_tracking_distance ^ 2 : Int) : ℚ) := by
        exact_mod_cast hd
      rw [calculate_distance2_cast] at hc
      push_cast at hc
      linarith
  by_cases hl : p.2.label = q.2.label
  · by_cases hd : calculate_distance2 p.2.box q.2.box <
        4 * cfg.max_tracking_distance ^ 2
    · rw [if_pos ⟨hl, hgate.mpr hd⟩, if_pos hl, if_pos hd]
      have h4 : qdistSq p.2.box q.2.box =
          ((calculate_distance2 p.2.box q.2.box : Int) : ℚ) / 4 := by
        rw [calculate_distance2_cast]; ring
      rw [h4]
      rfl
    · rw [if_neg (fun hcon => hd (hgate.mp hcon.2)), if_pos hl, if_neg hd]
      rfl
  · rw [if_neg (fun hcon => hl hcon.1), if_neg hl]
    rfl

theorem insertByQDist_map (a : Int × Nat × Nat) (l : List (Int × Nat × Nat)) :
    insertByQDist ((a.1 : ℚ) / 4, a.2.1, a.2.2)
        (l.map fun t => ((t.1 : ℚ) / 4, t.2.1, t.2.2)) =
      (insertByDist a l).map fun t => ((t.1 : ℚ) / 4, t.2.1, t.2.2) := by
  induction l with
  | nil => rfl
  | cons b rest ih =>
      rw [List.map_cons, insertByQDist, insertByDist]
      have hiff : ((a.1 : ℚ) / 4 ≤ (b.1 : ℚ) / 4) ↔ (a.1 ≤ b.1) := by
        constructor
        · intro h
          exact_mod_cast (by linarith : ((a.1 : ℚ)) ≤ (b.1 : ℚ))
        · intro h
          have : ((a.1 : ℚ)) ≤ (b.1 : ℚ) := by exact_mod_cast h
          linarith
      by_cases hc : a.1 ≤ b.1
      · rw [if_pos (hiff.mpr hc), if_pos hc, List.map_cons, List.map_cons]
      · rw [if_neg (fun hcon => hc (hiff.mp hcon)), if_neg hc, List.map_cons, ih]

theorem sortByQDist_map (l : List (Int × Nat × Nat)) :
    sortByQDist (l.map fun t => ((t.1 : ℚ) / 4, t.2.1, t.2.2)) =
      (sortByDist l).map fun t => ((t.1 : ℚ) / 4, t.2.1, t.2.2) := by
  induction l with
  | nil => rfl
  | cons a rest ih =>
      rw [List.map_cons, sortByQDist, sortByDist, List.foldr_cons,
        List.foldr_cons]
      rw [show List.foldr insertByQDist []
          (rest.map fun t => ((t.1 : ℚ) / 4, t.2.1, t.2.2)) =
          sortByQDist (rest.map fun t => ((t.1 : ℚ) / 4, t.2.1, t.2.2)) from rfl,
        ih]
      exact insertByQDist_map a (sortByDist rest)

theorem specScan_map (l : List (Int × Nat × Nat)) :
    ∀ (cu ci : List Nat),
      specScan (l.map fun t => ((t.1 : ℚ) / 4, t.2.1, t.2.2)) cu ci =
        acceptedPairs l cu ci := by
  induction l with
  | nil => intro cu ci; rfl
  | cons a rest ih =>
      intro cu ci
      obtain ⟨d, uid, i⟩ := a
      rw [List.map_cons, specScan, acceptedPairs]
      by_cases hc : uid ∈ cu ∨ i ∈ ci
      · rw [if_pos hc, if_pos hc]; exact ih cu ci
      · rw [if_neg hc, if_neg hc, ih]

/-! ### Lemmas about Step 3 (recovery and creation) -/

theorem lookupE_of_mem_nodup (l : EMap) (p : Nat × TrackedObject)
    (hp : p ∈ l) (hn : (keysOf l).Nodup) : lookupE l p.1 = some p.2 := by
  induction l with
  | nil => simp at hp
  | cons q rest ih =>
      rw [lookupE]
      rcases List.mem_cons.mp hp with rfl | hp'
      · rw [if_pos rfl]
      · have hq : q.1 ≠ p.1 := by
          intro hh
          exact (List.nodup_cons.mp hn).1
            (hh ▸ List.mem_map_of_mem Prod.fst hp')
        rw [if_neg hq]
        exact ih hp' (List.nodup_cons.mp hn).2

theorem findBest_fold (lab : String) (bx : Box) (l : EMap) :
    ∀ (acc : Option Nat × Int) (h : Nat),
      (l.foldl (fun acc p =>
        if p.2.label ≠ lab then acc
        else
          if calculate_distance2 p.2.box bx < acc.2 then
            (some p.1, calculate_distance2 p.2.box bx)
          else acc) acc).1 = some h →
      acc.1 = some h ∨ ∃ p ∈ l, p.1 = h ∧ (p.2 : TrackedObject).label = lab := by
  induction l with
  | nil => intro acc h hh; exact Or.inl hh
  | cons p rest ih =>
      intro acc h hh
      rw [List.foldl_cons] at hh
      rcases ih _ h hh with hacc | ⟨q, hq, hq1, hq2⟩
      · by_cases hlab : p.2.label ≠ lab
        · rw [if_pos hlab] at hacc
          exact Or.inl hacc
        · rw [if_neg hlab] at hacc
          by_cases hd : calculate_distance2 p.2.box bx < acc.2
          · rw [if_pos hd] at hacc
            refine Or.inr ⟨p, List.mem_cons_self _ _, ?_, not_not.mp hlab⟩
            injection hacc
          · rw [if_neg hd] at hacc
            exact Or.inl hacc
      · exact Or.inr ⟨q, List.mem_cons_of_mem _ hq, hq1, hq2⟩

theorem findBestHistory_spec (cfg : Config) (hist : EMap) (lab : String)
    (bx : Box) (h : Nat) (hh : findBestHistory cfg hist lab bx = some h) :
    ∃ p ∈ hist, p.1 = h ∧ (p.2 : TrackedObject).label = lab := by
  rw [findBestHistory] at hh
  rcases findBest_fold lab bx hist _ h hh with hacc | hex
  · simp at hacc
  · exact hex

theorem findBestHistory_mem_keys (cfg : Config) (hist : EMap) (lab : String)
    (bx : Box) (h : Nat) (hh : findBestHistory cfg hist lab bx = some h) :
    h ∈ keysOf hist := by
  obtain ⟨p, hp, hp1, _⟩ := findBestHistory_spec cfg hist lab bx h hh
  exact hp1 ▸ List.mem_map_of_mem Prod.fst hp

theorem findBestHistory_label (cfg : Config) (hist : EMap) (lab : String)
    (bx : Box) (h : Nat) (e : TrackedObject)
    (hn : (keysOf hist).Nodup)
    (hh : findBestHistory cfg hist lab bx = some h)
    (he : lookupE hist h = some e) : e.label = lab := by
  obtain ⟨p, hp, hp1, hp2⟩ := findBestHistory_spec cfg hist lab bx h hh
  have hl := lookupE_of_mem_nodup hist p hp hn
  rw [hp1, he] at hl
  injection hl with hl'
  rw [hl']
  exact hp2

theorem lookupBoth_cases (ents hist : EMap) (k : Nat) (e' : TrackedObject)
    (h : lookupBoth ents hist k = some e') :
    lookupE ents k = some e' ∨
      (lookupE ents k = none ∧ lookupE hist k = some e') := by
  rw [lookupBoth] at h
  cases hc : lookupE ents k with
  | some e =>
      rw [hc] at h
      exact Or.inl h
  | none =>
      rw [hc] at h
      exact Or.inr ⟨rfl, h⟩

theorem lookupBoth_of_ents (ents hist : EMap) (k : Nat) (e : TrackedObject)
    (h : lookupE ents k = some e) : lookupBoth ents hist k = some e := by
  rw [lookupBoth, h]

theorem lookupBoth_of_hist (ents hist : EMap) (k : Nat)
    (h : lookupE ents k = none) : lookupBoth ents hist k = lookupE hist k := by
  rw [lookupBoth, h]

theorem step3once_eq_new (cfg : Config) (now : Int) (s : Step3State)
    (obj : Detection)
    (hfb : findBestHistory cfg s.history obj.label obj.box = none) :
    step3once cfg now s obj =
      { entities := dinsert s.entities s.next_uid
          (TrackedObject.start s.next_uid obj.label obj.box none now)
        history := s.history
        next_uid := s.next_uid + 1 } := by
  rw [step3once, hfb]

theorem step3once_eq_ghost (cfg : Config) (now : Int) (s : Step3State)
    (obj : Detection) (h_uid : Nat)
    (hfb : findBestHistory cfg s.history obj.label obj.box = some h_uid)
    (hlk : lookupE s.history h_uid = none) :
    step3once cfg now s obj = s := by
  simp only [step3once, hfb, hlk]

theorem step3once_eq_resurrect (cfg : Config) (now : Int) (s : Step3State)
    (obj : Detection) (h_uid : Nat) (old : TrackedObject)
    (hfb : findBestHistory cfg s.history obj.label obj.box = some h_uid)
    (hlk : lookupE s.history h_uid = some old) :
    step3once cfg now s obj =
      { s with
        history := derase s.history h_uid
        entities := dinsert s.entities h_uid
          (TrackedObject.start old.uid obj.label obj.box
            (some old.start_time) now) } := by
  simp only [step3once, hfb, hlk]

theorem step3once_main (cfg : Config) (now : Int) (s : Step3State)
    (obj : Detection)
    (hInv : StoreInv s.entities s.history s.next_uid) :
    StoreInv (step3once cfg now s obj).entities
        (step3once cfg now s obj).history (step3once cfg now s obj).next_uid ∧
    s.next_uid ≤ (step3once cfg now s obj).next_uid ∧
    (∀ k x, lookupE s.entities k = some x →
      lookupE (step3once cfg now s obj).entities k = some x) ∧
    (∀ k, k < s.next_uid → ∀ e',
      lookupBoth (step3once cfg now s obj).entities
        (step3once cfg now s obj).history k = some e' →
      ∃ e, lookupBoth s.entities s.history k = some e ∧
        e'.label = e.label) := by
  obtain ⟨hne, hnh, hdisj, hue, huh, hbe, hbh⟩ := hInv
  cases hfb : findBestHistory cfg s.history obj.label obj.box with
  | none =>
      rw [step3once_eq_new cfg now s obj hfb]
      dsimp only
      have hnewe : s.next_uid ∉ keysOf s.entities :=
        fun hm => lt_irrefl _ (hbe _ hm)
      refine ⟨⟨nodup_keysOf_dinsert _ _ _ hne, hnh, ?_, ?_, huh, ?_, ?_⟩,
        Nat.le_succ _, ?_, ?_⟩
      · intro k hk
        rcases (mem_keysOf_dinsert _ _ _ _).mp hk with hk | rfl
        · exact hdisj k hk
        · exact fun hm => lt_irrefl _ (hbh _ hm)
      · intro p hp
        rcases mem_dinsert _ _ _ _ hp with hp | rfl
        · exact hue p hp
        · rfl
      · intro k hk
        rcases (mem_keysOf_dinsert _ _ _ _).mp hk with hk | rfl
        · exact Nat.lt_succ_of_lt (hbe k hk)
        · exact Nat.lt_succ_self _
      · intro k hk
        exact Nat.lt_succ_of_lt (hbh k hk)
      · intro k x hx
        have hk : k ≠ s.next_uid := by
          intro hh
          exact hnewe (hh ▸ mem_keysOf_of_lookupE _ _ _ hx)
        rw [lookupE_dinsert_ne _ _ _ _ hk]
        exact hx
      · intro k hk e' he'
        have hkn : k ≠ s.next_uid := Nat.ne_of_lt hk
        rcases lookupBoth_cases _ _ _ _ he' with hc | ⟨hc1, hc2⟩
        · rw [lookupE_dinsert_ne _ _ _ _ hkn] at hc
          exact ⟨e', lookupBoth_of_ents _ _ _ _ hc, rfl⟩
        · rw [lookupE_dinsert_ne _ _ _ _ hkn] at hc1
          refine ⟨e', ?_, rfl⟩
          rw [lookupBoth_of_hist _ _ _ hc1]
          exact hc2
  | some h_uid =>
      cases hlk : lookupE s.history h_uid with
      | none =>
          rw [step3once_eq_ghost cfg now s obj h_uid hfb hlk]
          exact ⟨⟨hne, hnh, hdisj, hue, huh, hbe, hbh⟩, le_refl _,
            fun k x hx => hx, fun k _ e' he' => ⟨e', he', rfl⟩⟩
      | some old =>
          have hmemh : h_uid ∈ keysOf s.history :=
            mem_keysOf_of_lookupE _ _ _ hlk
          have hnotme : h_uid ∉ keysOf s.entities :=
            fun hm => hdisj _ hm hmemh
          have hold_uid : old.uid = h_uid :=
            huh (h_uid, old) (lookupE_mem _ _ _ hlk)
          have hold_lab : old.label = obj.label :=
            findBestHistory_label cfg s.history obj.label obj.box h_uid old
              hnh hfb hlk
          rw [step3once_eq_resurrect cfg now s obj h_uid old hfb hlk]
          dsimp only
          refine ⟨⟨nodup_keysOf_dinsert _ _ _ hne,
            nodup_keysOf_derase _ _ hnh, ?_, ?_, ?_, ?_, ?_⟩,
            le_refl _, ?_, ?_⟩
          · intro k hk
            rcases (mem_keysOf_dinsert _ _ _ _).mp hk with hk | rfl
            · exact fun hm => hdisj k hk (mem_keysOf_derase _ _ _ hm)
            · exact not_mem_keysOf_derase _ _
          · intro p hp
            rcases mem_dinsert _ _ _ _ hp with hp | rfl
            · exact hue p hp
            · show (TrackedObject.start old.uid obj.label obj.box
                (some old.start_time) now).uid = h_uid
              rw [show (TrackedObject.start old.uid obj.label obj.box
                (some old.start_time) now).uid = old.uid from rfl, hold_uid]
          · intro p hp
            exact huh p (mem_derase _ _ _ hp)
          · intro k hk
            rcases (mem_keysOf_dinsert _ _ _ _).mp hk with hk | rfl
            · exact hbe k hk
            · exact hbh _ hmemh
          · intro k hk
            exact hbh k (mem_keysOf_derase _ _ _ hk)
          · intro k x hx
            have hk : k ≠ h_uid := by
              intro hh
              exact hnotme (hh ▸ mem_keysOf_of_lookupE _ _ _ hx)
            rw [lookupE_dinsert_ne _ _ _ _ hk]
            exact hx
          · intro k hk e' he'
            by_cases hkh : k = h_uid
            · subst hkh
              have hv : lookupE (dinsert s.entities k
                  (TrackedObject.start old.uid obj.label obj.box
                    (some old.start_time) now)) k =
                  some (TrackedObject.start old.uid obj.label obj.box
                    (some old.start_time) now) :=
                lookupE_dinsert_self _ _ _
              rw [lookupBoth_of_ents _ _ _ _ hv] at he'
              have he'' : e' = TrackedObject.start old.uid obj.label obj.box
                  (some old.start_time) now := by
                injection he' with hh
                exact hh.symm
              refine ⟨old, ?_, ?_⟩
              · rw [lookupBoth_of_hist _ _ _ (lookupE_eq_none _ _ hnotme)]
                exact hlk
              · rw [he'', show (TrackedObject.start old.uid obj.label obj.box
                  (some old.start_time) now).label = obj.label from rfl,
                  hold_lab]
            · rcases lookupBoth_cases _ _ _ _ he' with hc | ⟨hc1, hc2⟩
              · rw [lookupE_dinsert_ne _ _ _ _ hkh] at hc
                exact ⟨e', lookupBoth_of_ents _ _ _ _ hc, rfl⟩
              · rw [lookupE_dinsert_ne _ _ _ _ hkh] at hc1
                rw [lookupE_derase_ne _ _ _ hkh] at hc2
                refine ⟨e', ?_, rfl⟩
                rw [lookupBoth_of_hist _ _ _ hc1]
                exact hc2

theorem step3_main (cfg : Config) (now : Int) (mi : List Nat)
    (l : List (Nat × Detection)) :
    ∀ (s : Step3State), StoreInv s.entities s.history s.next_uid →
      StoreInv (step3 cfg now mi l s).entities
        (step3 cfg now mi l s).history (step3 cfg now mi l s).next_uid ∧
      s.next_uid ≤ (step3 cfg now mi l s).next_uid ∧
      (∀ k x, lookupE s.entities k = some x →
        lookupE (step3 cfg now mi l s).entities k = some x) ∧
      (∀ k, k < s.next_uid → ∀ e',
        lookupBoth (step3 cfg now mi l s).entities
          (step3 cfg now mi l s).history k = some e' →
        ∃ e, lookupBoth s.entities s.history k = some e ∧
          e'.label = e.label) := by
  induction l with
  | nil =>
      intro s h
      exact ⟨h, le_refl _, fun k x hx => hx, fun k _ e' he' => ⟨e', he', rfl⟩⟩
  | cons q rest ih =>
      intro s hInv
      rw [step3]
      by_cases hq : q.1 ∈ mi
      · rw [if_pos hq]
        exact ih s hInv
      · rw [if_neg hq]
        obtain ⟨hA1, hA2, hA3, hA4⟩ := step3once_main cfg now s q.2 hInv
        obtain ⟨hB1, hB2, hB3, hB4⟩ := ih (step3once cfg now s q.2) hA1
        refine ⟨hB1, le_trans hA2 hB2, ?_, ?_⟩
        · intro k x hx
          exact hB3 k x (hA3 k x hx)
        · intro k hk e' he'
          obtain ⟨e₁, he₁, hl₁⟩ := hB4 k (lt_of_lt_of_le hk hA2) e' he'
          obtain ⟨e₀, he₀, hl₀⟩ := hA4 k hk e₁ he₁
          exact ⟨e₀, he₀, hl₁.trans hl₀⟩

/-! ### Lemmas about Step 4 (disposal of unmatched active entities) -/

theorem mem_keysOf_derase_of_ne (l : EMap) (k j : Nat) (hne : j ≠ k)
    (h : j ∈ keysOf l) : j ∈ keysOf (derase l k) := by
  obtain ⟨e, he⟩ := Option.isSome_iff_exists.mp (lookupE_isSome_of_mem l j h)
  exact mem_keysOf_of_lookupE _ _ e (by rw [lookupE_derase_ne _ _ _ hne]; exact he)

theorem step4loop_keys (cfg : Config) (mu : List Nat) (w h : Int) :
    ∀ (uids : List Nat) (ents : EMap) (codes : List (Nat × Bool)),
      keysOf (step4loop cfg mu w h uids (ents, codes)).1 = keysOf ents := by
  intro uids
  induction uids with
  | nil => intro ents codes; rfl
  | cons u rest ih =>
      intro ents codes
      rw [step4loop]
      by_cases hu : u ∈ mu
      · rw [if_pos hu]; exact ih ents codes
      · rw [if_neg hu]
        cases hl : lookupE ents u with
        | none => exact ih ents codes
        | some entity => rw [ih, keysOf_updAt]

theorem uidField_updAt_const (l : EMap) (k : Nat) (v : TrackedObject)
    (hv : v.uid = k) (h : ∀ p ∈ l, (p.2 : TrackedObject).uid = p.1) :
    ∀ p ∈ updAt l k (fun _ => v), (p.2 : TrackedObject).uid = p.1 := by
  intro p hp
  rcases mem_updAt _ _ _ _ hp with hp | ⟨q, hq, hqk, rfl⟩
  · exact h p hp
  · show v.uid = q.1
    rw [hv, hqk]

theorem step4loop_uidField (cfg : Config) (mu : List Nat) (w h : Int) :
    ∀ (uids : List Nat) (ents : EMap) (codes : List (Nat × Bool)),
      (∀ p ∈ ents, (p.2 : TrackedObject).uid = p.1) →
      ∀ p ∈ (step4loop cfg mu w h uids (ents, codes)).1,
        (p.2 : TrackedObject).uid = p.1 := by
  intro uids
  induction uids with
  | nil => intro ents codes hf; exact hf
  | cons u rest ih =>
      intro ents codes hf
      rw [step4loop]
      by_cases hu : u ∈ mu
      · rw [if_pos hu]; exact ih ents codes hf
      · rw [if_neg hu]
        cases hl : lookupE ents u with
        | none => exact ih ents codes hf
        | some entity =>
            refine ih _ _ (uidField_updAt_const _ _ _ ?_ hf)
            show entity.mark_missing.uid = u
            rw [show entity.mark_missing.uid = entity.uid from rfl]
            exact hf (u, entity) (lookupE_mem _ _ _ hl)

theorem step4loop_labelSim (cfg : Config) (mu : List Nat) (w h : Int) :
    ∀ (uids : List Nat) (ents : EMap) (codes : List (Nat × Bool)) (k : Nat)
      (e' : TrackedObject),
      lookupE (step4loop cfg mu w h uids (ents, codes)).1 k = some e' →
      ∃ e, lookupE ents k = some e ∧ e'.label = e.label := by
  intro uids
  induction uids with
  | nil => intro ents codes k e' hk; exact ⟨e', hk, rfl⟩
  | cons u rest ih =>
      intro ents codes k e' hk
      rw [step4loop] at hk
      by_cases hu : u ∈ mu
      · rw [if_pos hu] at hk; exact ih ents codes k e' hk
      · rw [if_neg hu] at hk
        cases hl : lookupE ents u with
        | none => rw [hl] at hk; exact ih ents codes k e' hk
        | some entity =>
            rw [hl] at hk
            obtain ⟨e₁, he₁, hc⟩ := ih _ _ k e' hk
            by_cases hku : k = u
            · subst hku
              rw [lookupE_updAt_self, hl] at he₁
              have he₁' : e₁ = entity.mark_missing := by
                injection he₁ with hh
                exact hh.symm
              refine ⟨entity, hl, ?_⟩
              rw [hc, he₁']
              rfl
            · rw [lookupE_updAt_ne _ _ _ _ hku] at he₁
              exact ⟨e₁, he₁, hc⟩

theorem step4loop_untouched (cfg : Config) (mu : List Nat) (w h : Int) :
    ∀ (uids : List Nat) (ents : EMap) (codes : List (Nat × Bool)) (u : Nat),
      u ∉ uids →
      lookupE (step4loop cfg mu w h uids (ents, codes)).1 u = lookupE ents u ∧
      (∀ b, ((u, b) ∈ (step4loop cfg mu w h uids (ents, codes)).2 ↔
        (u, b) ∈ codes)) := by
  intro uids
  induction uids with
  | nil => intro ents codes u _; exact ⟨rfl, fun b => Iff.rfl⟩
  | cons u₀ rest ih =>
      intro ents codes u hu
      rw [List.mem_cons] at hu
      push_neg at hu
      rw [step4loop]
      by_cases hm : u₀ ∈ mu
      · rw [if_pos hm]; exact ih ents codes u hu.2
      · rw [if_neg hm]
        cases hl : lookupE ents u₀ with
        | none => exact ih ents codes u hu.2
        | some entity =>
            obtain ⟨ha, hb⟩ := ih
              (updAt ents u₀ fun _ => entity.mark_missing)
              (if is_in_kill_zone cfg entity.mark_missing.box w h then
                codes ++ [(u₀, false)]
              else if (entity.mark_missing.missing_frames : Int) >
                  cfg.memory_tolerance then
                codes ++ [(u₀, true)]
              else codes) u hu.2
            refine ⟨?_, ?_⟩
            · rw [ha, lookupE_updAt_ne _ _ _ _ hu.1]
            · intro b
              rw [hb]
              by_cases hkz : is_in_kill_zone cfg entity.mark_missing.box w h
              · rw [if_pos hkz, List.mem_append]
                constructor
                · rintro (hc | hc)
                  · exact hc
                  · exact absurd
                      (congrArg Prod.fst (List.mem_singleton.mp hc)) hu.1
                · exact Or.inl
              · rw [if_neg hkz]
                by_cases htol : (entity.mark_missing.missing_frames : Int) >
                    cfg.memory_tolerance
                · rw [if_pos htol, List.mem_append]
                  constructor
                  · rintro (hc | hc)
                    · exact hc
                    · exact absurd
                        (congrArg Prod.fst (List.mem_singleton.mp hc)) hu.1
                  · exact Or.inl
                · rw [if_neg htol]

theorem step4loop_processed (cfg : Config) (mu : List Nat) (w h : Int) :
    ∀ (uids : List Nat) (ents : EMap) (codes : List (Nat × Bool)) (u : Nat)
      (e : TrackedObject),
      uids.Nodup → u ∈ uids → u ∉ mu → lookupE ents u = some e →
      (∀ c ∈ codes, (c : Nat × Bool).1 ≠ u) →
      lookupE (step4loop cfg mu w h uids (ents, codes)).1 u =
        some e.mark_missing ∧
      (is_in_kill_zone cfg e.mark_missing.box w h = true →
        ((u, false) ∈ (step4loop cfg mu w h uids (ents, codes)).2 ∧
         ∀ b, (u, b) ∈ (step4loop cfg mu w h uids (ents, codes)).2 →
           b = false)) ∧
      (is_in_kill_zone cfg e.mark_missing.box w h = false →
        ((e.mark_missing.missing_frames : Int) > cfg.memory_tolerance →
          ((u, true) ∈ (step4loop cfg mu w h uids (ents, codes)).2 ∧
           ∀ b, (u, b) ∈ (step4loop cfg mu w h uids (ents, codes)).2 →
             b = true)) ∧
        (¬((e.mark_missing.missing_frames : Int) > cfg.memory_tolerance) →
          ∀ b, (u, b) ∉ (step4loop cfg mu w h uids (ents, codes)).2)) := by
  intro uids
  induction uids with
  | nil => intro ents codes u e _ hu; exact absurd hu (List.not_mem_nil _)
  | cons u₀ rest ih =>
      intro ents codes u e hnd hu hmu hle hcodes
      have hnd' := List.nodup_cons.mp hnd
      rw [step4loop]
      by_cases hm : u₀ ∈ mu
      · rw [if_pos hm]
        have hne : u ≠ u₀ := fun hh => hmu (hh ▸ hm)
        have hu' : u ∈ rest := (List.mem_cons.mp hu).resolve_left hne
        exact ih ents codes u e hnd'.2 hu' hmu hle hcodes
      · rw [if_neg hm]
        by_cases hequ : u = u₀
        · subst hequ
          rw [hle]
          have hrest : u ∉ rest := hnd'.1
          have hub := step4loop_untouched cfg mu w h rest
            (updAt ents u fun _ => e.mark_missing)
            (if is_in_kill_zone cfg e.mark_missing.box w h then
              codes ++ [(u, false)]
            else if (e.mark_missing.missing_frames : Int) >
                cfg.memory_tolerance then
              codes ++ [(u, true)]
            else codes) u hrest
          refine ⟨?_, ?_, ?_⟩
          · rw [hub.1, lookupE_updAt_self, hle]
            rfl
          · intro hkz
            constructor
            · rw [hub.2 false, if_pos (by rw [hkz])]
              exact List.mem_append_right _ (List.mem_singleton.mpr rfl)
            · intro b hbmem
              rw [hub.2 b, if_pos (by rw [hkz]), List.mem_append] at hbmem
              rcases hbmem with hc | hc
              · exact absurd rfl (hcodes _ hc)
              · exact congrArg Prod.snd (List.mem_singleton.mp hc)
          · intro hkz
            constructor
            · intro htol
              constructor
              · rw [hub.2 true, if_neg (by rw [hkz]; exact Bool.false_ne_true),
                  if_pos htol]
                exact List.mem_append_right _ (List.mem_singleton.mpr rfl)
              · intro b hbmem
                rw [hub.2 b, if_neg (by rw [hkz]; exact Bool.false_ne_true),
                  if_pos htol, List.mem_append] at hbmem
                rcases hbmem with hc | hc
                · exact absurd rfl (hcodes _ hc)
                · exact congrArg Prod.snd (List.mem_singleton.mp hc)
            · intro htol b hbmem
              rw [hub.2 b, if_neg (by rw [hkz]; exact Bool.false_ne_true),
                if_neg htol] at hbmem
              exact (hcodes _ hbmem) rfl
        · have hu' : u ∈ rest := (List.mem_cons.mp hu).resolve_left hequ
          cases hl₀ : lookupE ents u₀ with
          | none => exact ih ents codes u e hnd'.2 hu' hmu hle hcodes
          | some entity =>
              refine ih _ _ u e hnd'.2 hu' hmu ?_ ?_
              · rw [lookupE_updAt_ne _ _ _ _ hequ]
                exact hle
              · intro c hc
                by_cases hkz : is_in_kill_zone cfg entity.mark_missing.box w h
                · rw [if_pos hkz] at hc
                  rcases List.mem_append.mp hc with hc | hc
                  · exact hcodes c hc
                  · rw [List.mem_singleton.mp hc]
                    exact fun hh => hequ hh.symm
                · rw [if_neg hkz] at hc
                  by_cases htol : (entity.mark_missing.missing_frames : Int) >
                      cfg.memory_tolerance
                  · rw [if_pos htol] at hc
                    rcases List.mem_append.mp hc with hc | hc
                    · exact hcodes c hc
                    · rw [List.mem_singleton.mp hc]
                      exact fun hh => hequ hh.symm
                  · rw [if_neg htol] at hc
                    exact hcodes c hc

theorem not_mem_keysOf_of_lookupE_none (l : EMap) (k : Nat)
    (h : lookupE l k = none) : k ∉ keysOf l := by
  intro hm
  have := lookupE_isSome_of_mem l k hm
  rw [h] at this
  simp at this

theorem step4apply_cons (u : Nat) (b : Bool) (rest : List (Nat × Bool))
    (ents hist : EMap) :
    step4apply ((u, b) :: rest) (ents, hist) =
      step4apply rest (derase ents u,
        if b then
          (match lookupE ents u with
           | some e => dinsert hist u e
           | none => hist)
        else hist) := rfl

theorem step4apply_cons_false (u : Nat) (rest : List (Nat × Bool))
    (ents hist : EMap) :
    step4apply ((u, false) :: rest) (ents, hist) =
      step4apply rest (derase ents u, hist) := rfl

theorem step4apply_cons_true_some (u : Nat) (rest : List (Nat × Bool))
    (ents hist : EMap) (e : TrackedObject) (h : lookupE ents u = some e) :
    step4apply ((u, true) :: rest) (ents, hist) =
      step4apply rest (derase ents u, dinsert hist u e) := by
  rw [step4apply_cons, if_pos rfl, h]

theorem step4apply_cons_true_none (u : Nat) (rest : List (Nat × Bool))
    (ents hist : EMap) (h : lookupE ents u = none) :
    step4apply ((u, true) :: rest) (ents, hist) =
      step4apply rest (derase ents u, hist) := by
  rw [step4apply_cons, if_pos rfl, h]

theorem step4apply_untouched :
    ∀ (codes : List (Nat × Bool)) (ents hist : EMap) (u : Nat),
      (∀ c ∈ codes, (c : Nat × Bool).1 ≠ u) →
      lookupE (step4apply codes (ents, hist)).1 u = lookupE ents u ∧
      lookupE (step4apply codes (ents, hist)).2 u = lookupE hist u := by
  intro codes
  induction codes with
  | nil => intro ents hist u _; exact ⟨rfl, rfl⟩
  | cons c rest ih =>
      intro ents hist u hc
      obtain ⟨u₀, b⟩ := c
      have hne : u₀ ≠ u := hc (u₀, b) (List.mem_cons_self _ _)
      have hne' : u ≠ u₀ := fun hh => hne hh.symm
      rw [step4apply_cons]
      obtain ⟨h1, h2⟩ := ih (derase ents u₀)
        (if b then
          (match lookupE ents u₀ with
           | some e => dinsert hist u₀ e
           | none => hist)
        else hist) u (fun c hcm => hc c (List.mem_cons_of_mem _ hcm))
      refine ⟨?_, ?_⟩
      · rw [h1, lookupE_derase_ne _ _ _ hne']
      · rw [h2]
        cases b with
        | false => rfl
        | true =>
            cases hl : lookupE ents u₀ with
            | none => rfl
            | some e =>
                show lookupE (dinsert hist u₀ e) u = lookupE hist u
                exact lookupE_dinsert_ne _ _ _ _ hne'

theorem step4apply_no_readd :
    ∀ (codes : List (Nat × Bool)) (ents hist : EMap) (u : Nat),
      u ∉ keysOf ents → u ∉ keysOf hist →
      u ∉ keysOf (step4apply codes (ents, hist)).1 ∧
      u ∉ keysOf (step4apply codes (ents, hist)).2 := by
  intro codes
  induction codes with
  | nil => intro ents hist u h1 h2; exact ⟨h1, h2⟩
  | cons c rest ih =>
      intro ents hist u h1 h2
      obtain ⟨u₀, b⟩ := c
      rw [step4apply_cons]
      refine ih _ _ u ?_ ?_
      · exact fun hm => h1 (mem_keysOf_derase _ _ _ hm)
      · cases b with
        | false => exact h2
        | true =>
            cases hl : lookupE ents u₀ with
            | none => exact h2
            | some e =>
                show u ∉ keysOf (dinsert hist u₀ e)
                intro hm
                rcases (mem_keysOf_dinsert _ _ _ _).mp hm with hm | rfl
                · exact h2 hm
                · exact h1 (mem_keysOf_of_lookupE _ _ _ hl)

theorem step4apply_erased :
    ∀ (codes : List (Nat × Bool)) (ents hist : EMap) (u : Nat),
      (u, false) ∈ codes → (∀ b, (u, b) ∈ codes → b = false) →
      u ∉ keysOf hist →
      u ∉ keysOf (step4apply codes (ents, hist)).1 ∧
      u ∉ keysOf (step4apply codes (ents, hist)).2 := by
  intro codes
  induction codes with
  | nil => intro ents hist u hm; exact absurd hm (List.not_mem_nil _)
  | cons c rest ih =>
      intro ents hist u hmem huniq hh
      obtain ⟨u₀, b⟩ := c
      by_cases hequ : u₀ = u
      · subst hequ
        have hb : b = false := huniq b (List.mem_cons_self _ _)
        subst hb
        rw [step4apply_cons]
        exact step4apply_no_readd rest _ _ u₀ (not_mem_keysOf_derase _ _) hh
      · rw [step4apply_cons]
        have hmem' : (u, false) ∈ rest := by
          rcases List.mem_cons.mp hmem with hm | hm
          · exact absurd (congrArg Prod.fst hm).symm hequ
          · exact hm
        refine ih _ _ u hmem'
          (fun b' hb' => huniq b' (List.mem_cons_of_mem _ hb')) ?_
        cases b with
        | false => exact hh
        | true =>
            cases hl : lookupE ents u₀ with
            | none => exact hh
            | some e =>
                show u ∉ keysOf (dinsert hist u₀ e)
                intro hm
                rcases (mem_keysOf_dinsert _ _ _ _).mp hm with hm | hm
                · exact hh hm
                · exact hequ hm.symm

theorem step4apply_ghost :
    ∀ (codes : List (Nat × Bool)) (ents hist : EMap) (u : Nat),
      u ∉ keysOf ents →
      lookupE (step4apply codes (ents, hist)).2 u = lookupE hist u ∧
      u ∉ keysOf (step4apply codes (ents, hist)).1 := by
  intro codes
  induction codes with
  | nil => intro ents hist u h1; exact ⟨rfl, h1⟩
  | cons c rest ih =>
      intro ents hist u h1
      obtain ⟨u₀, b⟩ := c
      have h1' : u ∉ keysOf (derase ents u₀) :=
        fun hm => h1 (mem_keysOf_derase _ _ _ hm)
      cases b with
      | false =>
          rw [step4apply_cons_false]
          exact ih _ _ u h1'
      | true =>
          cases hl : lookupE ents u₀ with
          | none =>
              rw [step4apply_cons_true_none _ _ _ _ hl]
              exact ih _ _ u h1'
          | some e₀ =>
              have hne : u ≠ u₀ := by
                intro hh
                exact h1 (hh ▸ mem_keysOf_of_lookupE _ _ _ hl)
              rw [step4apply_cons_true_some _ _ _ _ _ hl]
              obtain ⟨ha, hb⟩ := ih (derase ents u₀) (dinsert hist u₀ e₀) u h1'
              exact ⟨by rw [ha, lookupE_dinsert_ne _ _ _ _ hne], hb⟩

theorem step4apply_moved :
    ∀ (codes : List (Nat × Bool)) (ents hist : EMap) (u : Nat)
      (e : TrackedObject),
      (u, true) ∈ codes → (∀ b, (u, b) ∈ codes → b = true) →
      lookupE ents u = some e → u ∉ keysOf hist →
      lookupE (step4apply codes (ents, hist)).2 u = some e ∧
      u ∉ keysOf (step4apply codes (ents, hist)).1 := by
  intro codes
  induction codes with
  | nil => intro ents hist u e hm; exact absurd hm (List.not_mem_nil _)
  | cons c rest ih =>
      intro ents hist u e hmem huniq hle hh
      obtain ⟨u₀, b⟩ := c
      by_cases hequ : u₀ = u
      · subst hequ
        have hb : b = true := huniq b (List.mem_cons_self _ _)
        subst hb
        rw [step4apply_cons_true_some _ _ _ _ _ hle]
        obtain ⟨ha, hb'⟩ := step4apply_ghost rest (derase ents u₀)
          (dinsert hist u₀ e) u₀ (not_mem_keysOf_derase _ _)
        exact ⟨by rw [ha, lookupE_dinsert_self], hb'⟩
      · have hneu : u ≠ u₀ := fun hh' => hequ hh'.symm
        have hmem' : (u, true) ∈ rest := by
          rcases List.mem_cons.mp hmem with hm | hm
          · exact absurd (congrArg Prod.fst hm).symm hequ
          · exact hm
        have huniq' : ∀ b', (u, b') ∈ rest → b' = true :=
          fun b' hb' => huniq b' (List.mem_cons_of_mem _ hb')
        have hle' : lookupE (derase ents u₀) u = some e := by
          rw [lookupE_derase_ne _ _ _ hneu]
          exact hle
        cases b with
        | false =>
            rw [step4apply_cons_false]
            exact ih _ _ u e hmem' huniq' hle' hh
        | true =>
            cases hl : lookupE ents u₀ with
            | none =>
                rw [step4apply_cons_true_none _ _ _ _ hl]
                exact ih _ _ u e hmem' huniq' hle' hh
            | some e₀ =>
                rw [step4apply_cons_true_some _ _ _ _ _ hl]
                refine ih _ _ u e hmem' huniq' hle' ?_
                intro hm
                rcases (mem_keysOf_dinsert _ _ _ _).mp hm with hm | hm
                · exact hh hm
                · exact hequ hm.symm

theorem step4apply_inv :
    ∀ (codes : List (Nat × Bool)) (ents hist : EMap) (nuid : Nat),
      (keysOf ents).Nodup → (keysOf hist).Nodup →
      (∀ k ∈ keysOf ents, k ∉ keysOf hist) →
      (∀ p ∈ ents, (p.2 : TrackedObject).uid = p.1) →
      (∀ p ∈ hist, (p.2 : TrackedObject).uid = p.1) →
      (∀ k ∈ keysOf ents, k < nuid) →
      (∀ k ∈ keysOf hist, k < nuid) →
      StoreInv (step4apply codes (ents, hist)).1
        (step4apply codes (ents, hist)).2 nuid := by
  intro codes
  induction codes with
  | nil =>
      intro ents hist nuid h1 h2 h3 h4 h5 h6 h7
      exact ⟨h1, h2, h3, h4, h5, h6, h7⟩
  | cons c rest ih =>
      intro ents hist nuid h1 h2 h3 h4 h5 h6 h7
      obtain ⟨u₀, b⟩ := c
      rw [step4apply_cons]
      have hde1 : (keysOf (derase ents u₀)).Nodup := nodup_keysOf_derase _ _ h1
      have hde4 : ∀ p ∈ derase ents u₀, (p.2 : TrackedObject).uid = p.1 :=
        fun p hp => h4 p (mem_derase _ _ _ hp)
      have hde6 : ∀ k ∈ keysOf (derase ents u₀), k < nuid :=
        fun k hk => h6 k (mem_keysOf_derase _ _ _ hk)
      cases b with
      | false =>
          refine ih _ _ nuid hde1 h2 ?_ hde4 h5 hde6 h7
          exact fun k hk => h3 k (mem_keysOf_derase _ _ _ hk)
      | true =>
          cases hl : lookupE ents u₀ with
          | none =>
              refine ih _ _ nuid hde1 h2 ?_ hde4 h5 hde6 h7
              exact fun k hk => h3 k (mem_keysOf_derase _ _ _ hk)
          | some e =>
              have hu₀m : u₀ ∈ keysOf ents := mem_keysOf_of_lookupE _ _ _ hl
              have hu₀h : u₀ ∉ keysOf hist := h3 u₀ hu₀m
              refine ih _ _ nuid hde1 (nodup_keysOf_dinsert _ _ _ h2) ?_ hde4
                ?_ hde6 ?_
              · intro k hk
                have hkne : k ≠ u₀ := by
                  intro hh
                  exact not_mem_keysOf_derase ents u₀ (hh ▸ hk)
                intro hm
                rcases (mem_keysOf_dinsert _ _ _ _).mp hm with hm | hm
                · exact h3 k (mem_keysOf_derase _ _ _ hk) hm
                · exact hkne hm
              · intro p hp
                rcases mem_dinsert _ _ _ _ hp with hp | rfl
                · exact h5 p hp
                · exact h4 (u₀, e) (lookupE_mem _ _ _ hl)
              · intro k hk
                rcases (mem_keysOf_dinsert _ _ _ _).mp hk with hk | rfl
                · exact h7 k hk
                · exact h6 _ hu₀m

theorem step4apply_lookupBoth :
    ∀ (codes : List (Nat × Bool)) (ents hist : EMap),
      (∀ k ∈ keysOf ents, k ∉ keysOf hist) →
      ∀ (k : Nat) (e' : TrackedObject),
        lookupBoth (step4apply codes (ents, hist)).1
          (step4apply codes (ents, hist)).2 k = some e' →
        lookupBoth ents hist k = some e' := by
  intro codes
  induction codes with
  | nil => intro ents hist _ k e' h; exact h
  | cons c rest ih =>
      intro ents hist hdisj k e' hk
      obtain ⟨u₀, b⟩ := c
      cases b with
      | false =>
          rw [step4apply_cons_false] at hk
          have hdisj₁ : ∀ j ∈ keysOf (derase ents u₀), j ∉ keysOf hist :=
            fun j hj => hdisj j (mem_keysOf_derase _ _ _ hj)
          have hstep := ih _ _ hdisj₁ k e' hk
          rcases lookupBoth_cases _ _ _ _ hstep with hc | ⟨hc1, hc2⟩
          · by_cases hku : k = u₀
            · exfalso
              have hmem := mem_keysOf_of_lookupE _ _ _ hc
              rw [hku] at hmem
              exact not_mem_keysOf_derase _ _ hmem
            · rw [lookupE_derase_ne _ _ _ hku] at hc
              exact lookupBoth_of_ents _ _ _ _ hc
          · have hkh := mem_keysOf_of_lookupE _ _ _ hc2
            have hke : k ∉ keysOf ents := fun hm => hdisj k hm hkh
            rw [lookupBoth_of_hist _ _ _ (lookupE_eq_none _ _ hke)]
            exact hc2
      | true =>
          cases hl₀ : lookupE ents u₀ with
          | none =>
              rw [step4apply_cons_true_none _ _ _ _ hl₀] at hk
              have hdisj₁ : ∀ j ∈ keysOf (derase ents u₀), j ∉ keysOf hist :=
                fun j hj => hdisj j (mem_keysOf_derase _ _ _ hj)
              have hstep := ih _ _ hdisj₁ k e' hk
              rcases lookupBoth_cases _ _ _ _ hstep with hc | ⟨hc1, hc2⟩
              · by_cases hku : k = u₀
                · exfalso
                  have hmem := mem_keysOf_of_lookupE _ _ _ hc
                  rw [hku] at hmem
                  exact not_mem_keysOf_derase _ _ hmem
                · rw [lookupE_derase_ne _ _ _ hku] at hc
                  exact lookupBoth_of_ents _ _ _ _ hc
              · have hkh := mem_keysOf_of_lookupE _ _ _ hc2
                have hke : k ∉ keysOf ents := fun hm => hdisj k hm hkh
                rw [lookupBoth_of_hist _ _ _ (lookupE_eq_none _ _ hke)]
                exact hc2
          | some e₀ =>
              rw [step4apply_cons_true_some _ _ _ _ _ hl₀] at hk
              have hdisj₁ : ∀ j ∈ keysOf (derase ents u₀),
                  j ∉ keysOf (dinsert hist u₀ e₀) := by
                intro j hj hm
                have hjne : j ≠ u₀ := by
                  intro hh
                  exact not_mem_keysOf_derase ents u₀ (hh ▸ hj)
                rcases (mem_keysOf_dinsert _ _ _ _).mp hm with hm | hm
                · exact hdisj j (mem_keysOf_derase _ _ _ hj) hm
                · exact hjne hm
              have hstep := ih _ _ hdisj₁ k e' hk
              rcases lookupBoth_cases _ _ _ _ hstep with hc | ⟨hc1, hc2⟩
              · by_cases hku : k = u₀
                · exfalso
                  have hmem := mem_keysOf_of_lookupE _ _ _ hc
                  rw [hku] at hmem
                  exact not_mem_keysOf_derase _ _ hmem
                · rw [lookupE_derase_ne _ _ _ hku] at hc
                  exact lookupBoth_of_ents _ _ _ _ hc
              · by_cases hku : k = u₀
                · rw [hku] at hc2 ⊢
                  rw [lookupE_dinsert_self] at hc2
                  have he₀ : e₀ = e' := by injection hc2
                  rw [← he₀]
                  exact lookupBoth_of_ents _ _ _ _ hl₀
                · rw [lookupE_dinsert_ne _ _ _ _ hku] at hc2
                  rw [lookupE_derase_ne _ _ _ hku] at hc1
                  rw [lookupBoth_of_hist _ _ _ hc1]
                  exact hc2

/-! ### Lemmas about Step 5 (memory garbage collection) -/

theorem step5_mem (cfg : Config) (now : Int) (hist : EMap)
    (p : Nat × TrackedObject) (h : p ∈ step5 cfg now hist) : p ∈ hist :=
  List.mem_of_mem_filter h

theorem step5_keys_sublist (cfg : Config) (now : Int) (hist : EMap) :
    (keysOf (step5 cfg now hist)).Sublist (keysOf hist) :=
  (List.filter_sublist _).map Prod.fst

theorem step5_absent (cfg : Config) (now : Int) (hist : EMap) (k : Nat)
    (h : k ∉ keysOf hist) : k ∉ keysOf (step5 cfg now hist) :=
  fun hm => h ((step5_keys_sublist cfg now hist).mem hm)

theorem step5_lookup_some (cfg : Config) (now : Int) :
    ∀ (hist : EMap) (k : Nat) (e : TrackedObject),
      (keysOf hist).Nodup →
      lookupE (step5 cfg now hist) k = some e → lookupE hist k = some e := by
  intro hist
  induction hist with
  | nil => intro k e _ h; exact h
  | cons p rest ih =>
      intro k e hnd h
      have hnd' := List.nodup_cons.mp hnd
      rw [step5, List.filter_cons] at h
      by_cases hp : (!(decide (now - p.2.last_seen_time >
          cfg.history_duration))) = true
      · rw [if_pos hp] at h
        rw [lookupE] at h ⊢
        by_cases hk : p.1 = k
        · rw [if_pos hk] at h ⊢
          exact h
        · rw [if_neg hk] at h ⊢
          exact ih k e hnd'.2 h
      · rw [if_neg hp] at h
        have hre : lookupE rest k = some e := ih k e hnd'.2 h
        rw [lookupE]
        by_cases hk : p.1 = k
        · exfalso
          exact hnd'.1 (hk ▸ List.mem_map_of_mem Prod.fst
            (lookupE_mem _ _ _ hre))
        · rw [if_neg hk]
          exact hre

theorem step5_keeps (cfg : Config) (now : Int) :
    ∀ (hist : EMap) (k : Nat) (e : TrackedObject),
      lookupE hist k = some e →
      ¬(now - e.last_seen_time > cfg.history_duration) →
      lookupE (step5 cfg now hist) k = some e := by
  intro hist
  induction hist with
  | nil => intro k e h; simp [lookupE] at h
  | cons p rest ih =>
      intro k e h hc
      rw [lookupE] at h
      rw [step5, List.filter_cons]
      by_cases hk : p.1 = k
      · rw [if_pos hk] at h
        have hpe : p.2 = e := by injection h
        have hcond : (!(decide (now - p.2.last_seen_time >
            cfg.history_duration))) = true := by
          rw [hpe]
          simpa using hc
        rw [if_pos hcond, lookupE, if_pos hk]
        exact h
      · rw [if_neg hk] at h
        by_cases hcond : (!(decide (now - p.2.last_seen_time >
            cfg.history_duration))) = true
        · rw [if_pos hcond, lookupE, if_neg hk]
          exact ih k e h hc
        · rw [if_neg hcond]
          exact ih k e h hc

theorem step5_inv (cfg : Config) (now : Int) (ents hist : EMap) (nuid : Nat)
    (hInv : StoreInv ents hist nuid) :
    StoreInv ents (step5 cfg now hist) nuid := by
  obtain ⟨h1, h2, h3, h4, h5, h6, h7⟩ := hInv
  refine ⟨h1, (step5_keys_sublist cfg now hist).nodup h2, ?_, h4, ?_, h6, ?_⟩
  · exact fun k hk => fun hm => h3 k hk
      ((step5_keys_sublist cfg now hist).mem hm)
  · exact fun p hp => h5 p (step5_mem cfg now hist p hp)
  · exact fun k hk => h7 k ((step5_keys_sublist cfg now hist).mem hk)

/-! ### Assembly: facts about `trackerCore` and `process` -/

theorem lookupE_none_of_keys_eq (l l' : EMap) (hk : keysOf l' = keysOf l)
    (k : Nat) (h : lookupE l k = none) : lookupE l' k = none :=
  lookupE_eq_none _ _ fun hm =>
    not_mem_keysOf_of_lookupE_none l k h (hk ▸ hm)

theorem process_state_entities (cfg : Config) (st : ObjectManager)
    (dets : List Detection) (w h now : Int) (sink : Bool) :
    (process cfg st dets w h now sink).state.entities =
      (trackerCore cfg st dets w h now).1 := by
  rw [process]
  by_cases hc : now - st.last_json_write > st.write_interval
  · rw [if_pos hc]
  · rw [if_neg hc]

theorem process_state_history (cfg : Config) (st : ObjectManager)
    (dets : List Detection) (w h now : Int) (sink : Bool) :
    (process cfg st dets w h now sink).state.history =
      (trackerCore cfg st dets w h now).2.1 := by
  rw [process]
  by_cases hc : now - st.last_json_write > st.write_interval
  · rw [if_pos hc]
  · rw [if_neg hc]

theorem process_state_next_uid (cfg : Config) (st : ObjectManager)
    (dets : List Detection) (w h now : Int) (sink : Bool) :
    (process cfg st dets w h now sink).state.next_uid =
      (trackerCore cfg st dets w h now).2.2 := by
  rw [process]
  by_cases hc : now - st.last_json_write > st.write_interval
  · rw [if_pos hc]
  · rw [if_neg hc]

theorem process_ret_eq (cfg : Config) (st : ObjectManager)
    (dets : List Detection) (w h now : Int) (sink : Bool) :
    (process cfg st dets w h now sink).ret =
      (trackerCore cfg st dets w h now).1 := by
  rw [process]
  by_cases hc : now - st.last_json_write > st.write_interval
  · rw [if_pos hc]
  · rw [if_neg hc]

theorem stages_main (cfg : Config) (now w h : Int) (dets : List Detection)
    (st : ObjectManager) (hInv : Inv st)
    (m : EMap × List Nat × List Nat) (s3 : Step3State)
    (r4 : EMap × List (Nat × Bool)) (s4 : EMap × EMap)
    (hm : m = greedyLoop dets now
      (sortByDist (buildMatches cfg st.entities dets)) (st.entities, [], []))
    (hs3 : s3 = step3 cfg now m.2.2 dets.enum ⟨m.1, st.history, st.next_uid⟩)
    (hr4 : r4 = step4loop cfg m.2.1 w h (keysOf s3.entities) (s3.entities, []))
    (hs4 : s4 = step4apply r4.2 (r4.1, s3.history)) :
    StoreInv s4.1 (step5 cfg now s4.2) s3.next_uid ∧
    st.next_uid ≤ s3.next_uid ∧
    (∀ k, k < st.next_uid → ∀ e',
      lookupBoth s4.1 (step5 cfg now s4.2) k = some e' →
      ∃ e, lookupBoth st.entities st.history k = some e ∧
        e'.label = e.label) := by
  obtain ⟨hne, hnh, hdisj, hue, huh, hbe, hbh⟩ := hInv
  have hkeys1 : keysOf m.1 = keysOf st.entities := by
    rw [hm]
    exact greedyLoop_keysOf dets now _ st.entities [] []
  have hInvA : StoreInv m.1 st.history st.next_uid := by
    refine ⟨?_, hnh, ?_, ?_, huh, ?_, hbh⟩
    · rw [hkeys1]; exact hne
    · intro k hk
      rw [hkeys1] at hk
      exact hdisj k hk
    · rw [hm]
      exact greedyLoop_uidField dets now _ st.entities [] [] hue
    · intro k hk
      rw [hkeys1] at hk
      exact hbe k hk
  have h3 := step3_main cfg now m.2.2 dets.enum
    ⟨m.1, st.history, st.next_uid⟩ hInvA
  rw [← hs3] at h3
  obtain ⟨hI3, hmono3, hpres3, hsim3⟩ := h3
  obtain ⟨hne3, hnh3, hdisj3, hue3, huh3, hbe3, hbh3⟩ := hI3
  have hkeys4 : keysOf r4.1 = keysOf s3.entities := by
    rw [hr4]
    exact step4loop_keys cfg m.2.1 w h (keysOf s3.entities) s3.entities []
  have huid4 : ∀ p ∈ r4.1, (p.2 : TrackedObject).uid = p.1 := by
    rw [hr4]
    exact step4loop_uidField cfg m.2.1 w h (keysOf s3.entities)
      s3.entities [] hue3
  have hlab4 : ∀ (k : Nat) (e' : TrackedObject),
      lookupE r4.1 k = some e' →
      ∃ e, lookupE s3.entities k = some e ∧ e'.label = e.label := by
    rw [hr4]
    exact step4loop_labelSim cfg m.2.1 w h (keysOf s3.entities)
      s3.entities []
  have hI4 : StoreInv s4.1 s4.2 s3.next_uid := by
    rw [hs4]
    refine step4apply_inv r4.2 r4.1 s3.history s3.next_uid ?_ hnh3 ?_ huid4
      huh3 ?_ hbh3
    · rw [hkeys4]; exact hne3
    · intro k hk
      rw [hkeys4] at hk
      exact hdisj3 k hk
    · intro k hk
      rw [hkeys4] at hk
      exact hbe3 k hk
  obtain ⟨hne4, hnh4, hdisj4, hue4, huh4, hbe4, hbh4⟩ := hI4
  refine ⟨step5_inv cfg now s4.1 s4.2 s3.next_uid
      ⟨hne4, hnh4, hdisj4, hue4, huh4, hbe4, hbh4⟩, hmono3, ?_⟩
  intro k hk e' he'
  -- pull the lookup back through Step 5
  have hstep45 : lookupBoth s4.1 s4.2 k = some e' := by
    rcases lookupBoth_cases _ _ _ _ he' with hc | ⟨hc1, hc2⟩
    · exact lookupBoth_of_ents _ _ _ _ hc
    · rw [lookupBoth_of_hist _ _ _ hc1]
      exact step5_lookup_some cfg now s4.2 k e' hnh4 hc2
  -- pull it back through Step 4's moves
  have hstep4 : lookupBoth r4.1 s3.history k = some e' := by
    have hd : ∀ j ∈ keysOf r4.1, j ∉ keysOf s3.history := by
      intro j hj
      rw [hkeys4] at hj
      exact hdisj3 j hj
    have := step4apply_lookupBoth r4.2 r4.1 s3.history hd k e'
    rw [← hs4] at this
    exact this hstep45
  -- through Step 4's in-place marking
  have hstep3 : ∃ e₂, lookupBoth s3.entities s3.history k = some e₂ ∧
      e'.label = e₂.label := by
    rcases lookupBoth_cases _ _ _ _ hstep4 with hc | ⟨hc1, hc2⟩
    · obtain ⟨e₂, he₂, hl₂⟩ := hlab4 k e' hc
      exact ⟨e₂, lookupBoth_of_ents _ _ _ _ he₂, hl₂⟩
    · refine ⟨e', ?_, rfl⟩
      have hc1' : lookupE s3.entities k = none :=
        lookupE_none_of_keys_eq _ _ hkeys4.symm k hc1
      rw [lookupBoth_of_hist _ _ _ hc1']
      exact hc2
  obtain ⟨e₂, he₂, hl₂⟩ := hstep3
  -- through Step 3
  obtain ⟨e₁, he₁, hl₁⟩ := hsim3 k hk e₂ he₂
  -- through Steps 1–2
  rcases lookupBoth_cases _ _ _ _ he₁ with hc | ⟨hc1, hc2⟩
  · have hc' : lookupE (greedyLoop dets now
        (sortByDist (buildMatches cfg st.entities dets))
        (st.entities, [], [])).1 k = some e₁ := by
      rw [← hm]; exact hc
    obtain ⟨e₀, he₀, hcase⟩ := greedyLoop_sim dets now _ st.entities [] [] k e₁ hc'
    refine ⟨e₀, lookupBoth_of_ents _ _ _ _ he₀, ?_⟩
    rw [hl₂, hl₁]
    rcases hcase with rfl | ⟨b, rfl⟩
    · rfl
    · rfl
  · refine ⟨e₁, ?_, (hl₂.trans hl₁ : e'.label = e₁.label)⟩
    have hc1' : lookupE st.entities k = none :=
      lookupE_none_of_keys_eq _ _ hkeys1.symm k hc1
    rw [lookupBoth_of_hist _ _ _ hc1']
    exact hc2

theorem trackerCore_main (cfg : Config) (st : ObjectManager)
    (dets : List Detection) (w h now : Int) (hInv : Inv st) :
    StoreInv (trackerCore cfg st dets w h now).1
      (trackerCore cfg st dets w h now).2.1
      (trackerCore cfg st dets w h now).2.2 ∧
    st.next_uid ≤ (trackerCore cfg st dets w h now).2.2 ∧
    (∀ k, k < st.next_uid → ∀ e',
      lookupBoth (trackerCore cfg st dets w h now).1
        (trackerCore cfg st dets w h now).2.1 k = some e' →
      ∃ e, lookupBoth st.entities st.history k = some e ∧
        e'.label = e.label) :=
  stages_main cfg now w h dets st hInv _ _ _ _ rfl rfl rfl rfl

theorem process_inv (cfg : Config) (st : ObjectManager)
    (dets : List Detection) (w h now : Int) (sink : Bool) (hInv : Inv st) :
    Inv (process cfg st dets w h now sink).state ∧
    st.next_uid ≤ (process cfg st dets w h now sink).state.next_uid := by
  obtain ⟨h1, h2, _⟩ := trackerCore_main cfg st dets w h now hInv
  refine ⟨?_, ?_⟩
  · rw [Inv, process_state_entities, process_state_history,
      process_state_next_uid]
    exact h1
  · rw [process_state_next_uid]
    exact h2

theorem process_labelSim (cfg : Config) (st : ObjectManager)
    (dets : List Detection) (w h now : Int) (sink : Bool) (hInv : Inv st) :
    ∀ k, k < st.next_uid → ∀ e',
      lookupBoth (process cfg st dets w h now sink).state.entities
        (process cfg st dets w h now sink).state.history k = some e' →
      ∃ e, lookupBoth st.entities st.history k = some e ∧
        e'.label = e.label := by
  obtain ⟨_, _, h3⟩ := trackerCore_main cfg st dets w h now hInv
  intro k hk e' he'
  rw [process_state_entities, process_state_history] at he'
  exact h3 k hk e' he'

theorem runFrames_inv (cfg : Config) (frames : List FrameInput) :
    ∀ (st : ObjectManager), Inv st →
      Inv (runFrames cfg st frames) ∧
      st.next_uid ≤ (runFrames cfg st frames).next_uid := by
  induction frames with
  | nil => intro st h; exact ⟨h, le_refl _⟩
  | cons fi rest ih =>
      intro st h
      rw [runFrames]
      obtain ⟨h1, h2⟩ := process_inv cfg st fi.dets fi.img_w fi.img_h fi.now
        fi.sink_ok h
      obtain ⟨h3, h4⟩ := ih _ h1
      exact ⟨h3, le_trans h2 h4⟩

theorem runFrames_labelSim (cfg : Config) (frames : List FrameInput) :
    ∀ (st : ObjectManager), Inv st →
      ∀ k, k < st.next_uid → ∀ e',
        lookupBoth (runFrames cfg st frames).entities
          (runFrames cfg st frames).history k = some e' →
        ∃ e, lookupBoth st.entities st.history k = some e ∧
          e'.label = e.label := by
  induction frames with
  | nil => intro st _ k _ e' he'; exact ⟨e', he', rfl⟩
  | cons fi rest ih =>
      intro st h k hk e' he'
      rw [runFrames] at he'
      obtain ⟨h1, h2⟩ := process_inv cfg st fi.dets fi.img_w fi.img_h fi.now
        fi.sink_ok h
      obtain ⟨e₁, he₁, hl₁⟩ := ih _ h1 k (lt_of_lt_of_le hk h2) e' he'
      obtain ⟨e₀, he₀, hl₀⟩ := process_labelSim cfg st fi.dets fi.img_w
        fi.img_h fi.now fi.sink_ok h k hk e₁ he₁
      exact ⟨e₀, he₀, hl₁.trans hl₀⟩

theorem stages_unmatched (cfg : Config) (now w h : Int) (dets : List Detection)
    (st : ObjectManager) (uid : Nat) (e : TrackedObject) (hInv : Inv st)
    (he : lookupE st.entities uid = some e)
    (hmu : uid ∉ matchedUids cfg st.entities dets now)
    (m : EMap × List Nat × List Nat) (s3 : Step3State)
    (r4 : EMap × List (Nat × Bool)) (s4 : EMap × EMap)
    (hm : m = greedyLoop dets now
      (sortByDist (buildMatches cfg st.entities dets)) (st.entities, [], []))
    (hs3 : s3 = step3 cfg now m.2.2 dets.enum ⟨m.1, st.history, st.next_uid⟩)
    (hr4 : r4 = step4loop cfg m.2.1 w h (keysOf s3.entities) (s3.entities, []))
    (hs4 : s4 = step4apply r4.2 (r4.1, s3.history)) :
    (is_in_kill_zone cfg e.box w h = true →
      uid ∉ keysOf s4.1 ∧ uid ∉ keysOf (step5 cfg now s4.2)) ∧
    (is_in_kill_zone cfg e.box w h = false →
      ((((e.missing_frames + 1 : Nat) : Int) > cfg.memory_tolerance →
        uid ∉ keysOf s4.1 ∧
        (¬(now - e.last_seen_time > cfg.history_duration) →
          lookupE (step5 cfg now s4.2) uid = some e.mark_missing)) ∧
       (¬(((e.missing_frames + 1 : Nat) : Int) > cfg.memory_tolerance) →
        lookupE s4.1 uid = some e.mark_missing ∧
        uid ∉ keysOf (step5 cfg now s4.2)))) := by
  obtain ⟨hne, hnh, hdisj, hue, huh, hbe, hbh⟩ := hInv
  rw [matchedUids, ← hm] at hmu
  have hkeys1 : keysOf m.1 = keysOf st.entities := by
    rw [hm]
    exact greedyLoop_keysOf dets now _ st.entities [] []
  have hInvA : StoreInv m.1 st.history st.next_uid := by
    refine ⟨?_, hnh, ?_, ?_, huh, ?_, hbh⟩
    · rw [hkeys1]; exact hne
    · intro k hk
      rw [hkeys1] at hk
      exact hdisj k hk
    · rw [hm]
      exact greedyLoop_uidField dets now _ st.entities [] [] hue
    · intro k hk
      rw [hkeys1] at hk
      exact hbe k hk
  have h1 : lookupE m.1 uid = some e := by
    have := greedyLoop_unmatched dets now
      (sortByDist (buildMatches cfg st.entities dets)) st.entities [] [] uid
      (by rw [← hm]; exact hmu)
    rw [← hm] at this
    rw [this]
    exact he
  have h3 := step3_main cfg now m.2.2 dets.enum
    ⟨m.1, st.history, st.next_uid⟩ hInvA
  rw [← hs3] at h3
  obtain ⟨hI3, _, hpres3, _⟩ := h3
  obtain ⟨hne3, hnh3, hdisj3, hue3, huh3, hbe3, hbh3⟩ := hI3
  have h2 : lookupE s3.entities uid = some e := hpres3 uid e h1
  have hmem3 : uid ∈ keysOf s3.entities := mem_keysOf_of_lookupE _ _ _ h2
  have hdisj_h : uid ∉ keysOf s3.history := hdisj3 uid hmem3
  have hproc := step4loop_processed cfg m.2.1 w h (keysOf s3.entities)
    s3.entities [] uid e hne3 hmem3 hmu h2
    (fun c hc => absurd hc (List.not_mem_nil _))
  rw [← hr4] at hproc
  obtain ⟨hlkup4, hkill, hnokill⟩ := hproc
  constructor
  · intro hkz
    have hkz' : is_in_kill_zone cfg e.mark_missing.box w h = true := hkz
    obtain ⟨hmemc, huniqc⟩ := hkill hkz'
    have herase := step4apply_erased r4.2 r4.1 s3.history uid hmemc huniqc
      hdisj_h
    rw [← hs4] at herase
    exact ⟨herase.1, step5_absent cfg now s4.2 uid herase.2⟩
  · intro hkz
    have hkz' : is_in_kill_zone cfg e.mark_missing.box w h = false := hkz
    obtain ⟨htimeout, hstay⟩ := hnokill hkz'
    constructor
    · intro htol
      have htol' : (e.mark_missing.missing_frames : Int) >
          cfg.memory_tolerance := htol
      obtain ⟨hmemc, huniqc⟩ := htimeout htol'
      have hmoved := step4apply_moved r4.2 r4.1 s3.history uid
        e.mark_missing hmemc huniqc hlkup4 hdisj_h
      rw [← hs4] at hmoved
      refine ⟨hmoved.2, ?_⟩
      intro hret
      refine step5_keeps cfg now s4.2 uid e.mark_missing hmoved.1 ?_
      exact hret
    · intro htol
      have htol' : ¬((e.mark_missing.missing_frames : Int) >
          cfg.memory_tolerance) := htol
      have hnone := hstay htol'
      have hnc : ∀ c ∈ r4.2, (c : Nat × Bool).1 ≠ uid := by
        intro c hc hcc
        refine hnone c.2 ?_
        rw [← hcc]
        exact hc
      have huntouch := step4apply_untouched r4.2 r4.1 s3.history uid hnc
      rw [← hs4] at huntouch
      refine ⟨by rw [huntouch.1]; exact hlkup4, ?_⟩
      refine step5_absent cfg now s4.2 uid ?_
      apply not_mem_keysOf_of_lookupE_none
      rw [huntouch.2]
      exact lookupE_eq_none _ _ hdisj_h

theorem process_unmatched (cfg : Config) (st : ObjectManager)
    (dets : List Detection) (w h now : Int) (sink : Bool)
    (uid : Nat) (e : TrackedObject) (hInv : Inv st)
    (he : lookupE st.entities uid = some e)
    (hmu : uid ∉ matchedUids cfg st.entities dets now) :
    (is_in_kill_zone cfg e.box w h = true →
      uid ∉ keysOf (process cfg st dets w h now sink).state.entities ∧
      uid ∉ keysOf (process cfg st dets w h now sink).state.history) ∧
    (is_in_kill_zone cfg e.box w h = false →
      ((((e.missing_frames + 1 : Nat) : Int) > cfg.memory_tolerance →
        uid ∉ keysOf (process cfg st dets w h now sink).state.entities ∧
        (¬(now - e.last_seen_time > cfg.history_duration) →
          lookupE (process cfg st dets w h now sink).state.history uid =
            some e.mark_missing)) ∧
       (¬(((e.missing_frames + 1 : Nat) : Int) > cfg.memory_tolerance) →
        lookupE (process cfg st dets w h now sink).state.entities uid =
          some e.mark_missing ∧
        uid ∉ keysOf (process cfg st dets w h now sink).state.history))) := by
  have hmain := stages_unmatched cfg now w h dets st uid e hInv he hmu
    _ _ _ _ rfl rfl rfl rfl
  rw [process_state_entities, process_state_history]
  exact hmain

/-! ### Empty frames: no detections means no matches -/

theorem buildMatches_nil (cfg : Config) (ents : EMap) :
    buildMatches cfg ents [] = [] := by
  induction ents with
  | nil => rfl
  | cons p rest ih =>
      rw [buildMatches] at ih ⊢
      rw [List.flatMap_cons, ih]
      rfl

theorem matchedUids_nil (cfg : Config) (ents : EMap) (now : Int) :
    matchedUids cfg ents [] now = [] := by
  rw [matchedUids, buildMatches_nil]
  rfl

/-- With empty detection lists, an unmatched entity's missing counter grows
by one per call until it strictly exceeds the tolerance, at which point the
entity moves to memory: this takes `memory_tolerance + 1` calls from a
counter of zero. -/
theorem runFrames_empty_to_memory (cfg : Config) (w h now : Int)
    (sink : Bool) :
    ∀ (n : ℕ) (st : ObjectManager) (uid : Nat) (e : TrackedObject),
      Inv st →
      lookupE st.entities uid = some e →
      is_in_kill_zone cfg e.box w h = false →
      1 ≤ n →
      ((e.missing_frames : Int) + n = cfg.memory_tolerance + 1) →
      now - e.last_seen_time ≤ cfg.history_duration →
      uid ∉ keysOf (runFrames cfg st
        (List.replicate n ⟨[], w, h, now, sink⟩)).entities ∧
      uid ∈ keysOf (runFrames cfg st
        (List.replicate n ⟨[], w, h, now, sink⟩)).history := by
  intro n
  induction n with
  | zero =>
      intro st uid e _ _ _ h1
      exact absurd h1 (by norm_num)
  | succ k ih =>
      intro st uid e hInv he hkz _ hcount hret
      rw [List.replicate_succ, runFrames]
      have hp := process_unmatched cfg st [] w h now sink uid e hInv he
        (by rw [matchedUids_nil]; exact List.not_mem_nil _)
      rcases Nat.eq_zero_or_pos k with hk0 | hkpos
      · subst hk0
        have htol : ((e.missing_frames + 1 : Nat) : Int) >
            cfg.memory_tolerance := by
          push_cast at hcount ⊢
          linarith
        obtain ⟨hent, hhist⟩ := (hp.2 hkz).1 htol
        rw [List.replicate_zero, runFrames]
        exact ⟨hent, mem_keysOf_of_lookupE _ _ _ (hhist (not_lt.mpr hret))⟩
      · have hk1 : (1 : Int) ≤ (k : Int) := by exact_mod_cast hkpos
        have hstay : ¬(((e.missing_frames + 1 : Nat) : Int) >
            cfg.memory_tolerance) := by
          push_cast at hcount ⊢
          linarith
        obtain ⟨hlk, _⟩ := (hp.2 hkz).2 hstay
        have hInv1 := (process_inv cfg st [] w h now sink hInv).1
        refine ih _ uid e.mark_missing hInv1 hlk hkz hkpos ?_ hret
        push_cast at hcount ⊢
        push_cast [TrackedObject.mark_missing]
        linarith


/-! ### The claims -/

/-- C1: the claim states that every entity created or resurrected in
Step 3 for an unclaimed detection appears in the returned mapping with
`missing_count = 0` and `active = true`.  The code violates this: Step 4
re-reads `list(self.entities.keys())` after Step 3 and does not skip the
entities just created, so a freshly created entity is immediately
`mark_missing`-ed — it is returned with `missing_frames = 1` and
`active = false`; worse, a fresh detection inside the kill zone is
created and deleted in the same call and does not appear at all.  This
theorem evaluates `process` at the failing inputs: a fresh tracker with
one detection far from the border, respectively one inside the kill
zone. -/
theorem c1_fresh_entity_marked_missing_same_call :
    (process defaultConfig (ObjectManager.construct defaultConfig)
        [cupDetection] 1920 1080 100 true).ret =
      [(1, { uid := 1, label := "cup"
             box := { x := 500, y := 500, w := 50, h := 50 }
             start_time := 100, last_seen_time := 100
             missing_frames := 1, active := false })] ∧
    (process defaultConfig (ObjectManager.construct defaultConfig)
        [{ label := "cup", box := { x := 2, y := 2, w := 30, h := 30 } }]
        1920 1080 100 true).ret = [] :=
  ⟨rfl, rfl⟩

/-- C2: the claim states that constructing the tracker with an invalid
configuration (`recovery_distance < max_tracking_distance`, or a negative
tolerance) fails fast by raising at construction.  The code performs no
validation at all: `ObjectManager.__init__` takes only the JSON path and
builds the same usable state for any configuration.  This theorem
evaluates construction under `invalidConfig`: it yields exactly the same
state as under the valid default configuration, and the resulting tracker
is fully usable — `process` happily allocates an entity. -/
theorem c2_construction_accepts_invalid_config :
    ObjectManager.construct invalidConfig =
      ObjectManager.construct defaultConfig ∧
    (process invalidConfig (ObjectManager.construct invalidConfig)
      [cupDetection] 1920 1080 100 true).state.next_uid = 2 :=
  ⟨rfl, rfl⟩

/-- C3 counterexample: the claim says that after `missing_tolerance`
consecutive unmatched `process` calls the entity has left the active set
and entered memory.  With `MEMORY_TOLERANCE = 10`, an entity with
`missing_frames = 0` that goes unmatched for exactly 10 consecutive empty
frames is still in the active set (with `missing_frames = 10`) and memory
is still empty, because the code moves it only when `missing_frames`
strictly exceeds the tolerance. -/
theorem c3_counterexample_still_active_after_tolerance_frames :
    (runFrames defaultConfig cupState
      (List.replicate 10 emptyFrame)).entities =
      [(1, { uid := 1, label := "cup"
             box := { x := 500, y := 500, w := 50, h := 50 }
             start_time := 10, last_seen_time := 10
             missing_frames := 10, active := false })] ∧
    (runFrames defaultConfig cupState
      (List.replicate 10 emptyFrame)).history = [] :=
  ⟨rfl, rfl⟩

/-- C3 (amended): for every active entity with `missing_frames = 0` whose
box is outside the kill zone, after `missing_tolerance + 1` (not
`missing_tolerance`) consecutive unmatched (empty) `process` calls —
provided its memory-retention window has not expired — the entity is no
longer in the active set and is present in the memory set. -/
theorem c3_amended_memory_after_tolerance_plus_one (cfg : Config)
    (st : ObjectManager) (uid : Nat) (e : TrackedObject) (w h now : Int)
    (sink : Bool) (n : Nat) (hInv : Inv st)
    (he : lookupE st.entities uid = some e)
    (hm0 : e.missing_frames = 0)
    (hkz : is_in_kill_zone cfg e.box w h = false)
    (htol : 0 ≤ cfg.memory_tolerance)
    (hn : (n : Int) = cfg.memory_tolerance + 1)
    (hret : now - e.last_seen_time ≤ cfg.history_duration) :
    uid ∉ keysOf (runFrames cfg st
      (List.replicate n ⟨[], w, h, now, sink⟩)).entities ∧
    uid ∈ keysOf (runFrames cfg st
      (List.replicate n ⟨[], w, h, now, sink⟩)).history := by
  refine runFrames_empty_to_memory cfg w h now sink n st uid e hInv he hkz
    ?_ ?_ hret
  · by_contra hc
    push_neg at hc
    have hn0 : n = 0 := Nat.lt_one_iff.mp hc
    rw [hn0] at hn
    push_cast at hn
    linarith
  · rw [hm0]
    push_cast
    linarith

/-- Witness for C3 (amended): with the default configuration
(`memory_tolerance = 10`), 11 consecutive empty frames move entity 1 from
the active set to memory. -/
theorem c3_amended_memory_after_tolerance_plus_one_witness :
    1 ∉ keysOf (runFrames defaultConfig cupState
      (List.replicate 11 ⟨[], 1920, 1080, 11, true⟩)).entities ∧
    1 ∈ keysOf (runFrames defaultConfig cupState
      (List.replicate 11 ⟨[], 1920, 1080, 11, true⟩)).history :=
  c3_amended_memory_after_tolerance_plus_one defaultConfig cupState 1
    cupEntity 1920 1080 11 true 11 (by decide) rfl rfl rfl (by decide)
    (by decide) (by decide)

/-- C4: for every `process` call and every active entity unmatched in
that call, if its box satisfies `x < border_margin`, `y < border_margin`,
`x+w > frame_width - border_margin` or
`y+h > frame_height - border_margin`, then after the call the entity is
absent from both the active set and the memory set — deleted permanently
that same frame, regardless of the missing tolerance. -/
theorem c4_unmatched_killzone_entity_deleted_permanently (cfg : Config)
    (st : ObjectManager) (dets : List Detection) (w h now : Int)
    (sink : Bool) (uid : Nat) (e : TrackedObject) (hInv : Inv st)
    (he : lookupE st.entities uid = some e)
    (hmu : uid ∉ matchedUids cfg st.entities dets now)
    (hkz : e.box.x < cfg.border_margin ∨ e.box.y < cfg.border_margin ∨
      e.box.x + e.box.w > w - cfg.border_margin ∨
      e.box.y + e.box.h > h - cfg.border_margin) :
    uid ∉ keysOf (process cfg st dets w h now sink).state.entities ∧
    uid ∉ keysOf (process cfg st dets w h now sink).state.history := by
  have hkz' : is_in_kill_zone cfg e.box w h = true := by
    rw [is_in_kill_zone]
    simp only [Bool.or_eq_true, decide_eq_true_eq]
    tauto
  exact (process_unmatched cfg st dets w h now sink uid e hInv he hmu).1 hkz'

/-- Witness for C4: the spec's own scenario — an entity at box
`(2, 2, 30, 30)` with `border_margin = 10` goes undetected for one frame
and is absent from both stores after the call. -/
theorem c4_unmatched_killzone_entity_deleted_permanently_witness :
    1 ∉ keysOf (process defaultConfig edgeState [] 1920 1080 5
      true).state.entities ∧
    1 ∉ keysOf (process defaultConfig edgeState [] 1920 1080 5
      true).state.history :=
  c4_unmatched_killzone_entity_deleted_permanently defaultConfig edgeState
    [] 1920 1080 5 true 1 edgeEntity (by decide) rfl (by decide) (by decide)

/-- C5: every resurrection (Step 3 re-associating a memory entity with an
unclaimed detection within `RECOVERY_DISTANCE`) reinstates an active
entity with the same `id` and the same `created_at` (`start_time`) as the
memory entity it came from; only the `box` and `last_seen_at` change
among the identity fields (the counter is reset to 0 and the entity is
made active, exactly as on any confirmed match).  Stated on `step3once`,
the Step-3 transition for one unclaimed detection — `step3` is its fold
over all of them.  The hypothesis `start_time ≠ 0` reflects Python
truthiness in the constructor (`if original_start_time:`); real
wall-clock timestamps are never 0. -/
theorem c5_resurrection_preserves_id_and_created_at (cfg : Config)
    (now : Int) (s : Step3State) (obj : Detection) (h_uid : Nat)
    (m : TrackedObject)
    (hn : (keysOf s.history).Nodup)
    (hfield : ∀ p ∈ s.history, (p.2 : TrackedObject).uid = p.1)
    (hfb : findBestHistory cfg s.history obj.label obj.box = some h_uid)
    (hm : lookupE s.history h_uid = some m)
    (hs : m.start_time ≠ 0) :
    lookupE (step3once cfg now s obj).entities h_uid =
      some { uid := m.uid, label := m.label, box := obj.box
             start_time := m.start_time, last_seen_time := now
             missing_frames := 0, active := true } ∧
    m.uid = h_uid ∧
    lookupE (step3once cfg now s obj).history h_uid = none := by
  have hlab : m.label = obj.label :=
    findBestHistory_label cfg s.history obj.label obj.box h_uid m hn hfb hm
  rw [step3once_eq_resurrect cfg now s obj h_uid m hfb hm]
  dsimp only
  refine ⟨?_, hfield (h_uid, m) (lookupE_mem _ _ _ hm), ?_⟩
  · rw [lookupE_dinsert_self]
    congr 1
    rw [TrackedObject.start]
    simp [hs, hlab]
  · exact lookupE_eq_none _ _ (not_mem_keysOf_derase _ _)

/-- Witness for C5: a concrete resurrection — `staleMemoryEntity` is
reinstated under its uid 3 with its original `start_time = 10`, the new
box and the new `last_seen_time = 100`. -/
theorem c5_resurrection_preserves_id_and_created_at_witness :
    lookupE (step3once defaultConfig 100
      { entities := [], history := [(3, staleMemoryEntity)], next_uid := 4 }
      nearCupDetection).entities 3 =
      some { uid := 3, label := "cup"
             box := { x := 510, y := 500, w := 50, h := 50 }
             start_time := 10, last_seen_time := 100
             missing_frames := 0, active := true } ∧
    staleMemoryEntity.uid = 3 ∧
    lookupE (step3once defaultConfig 100
      { entities := [], history := [(3, staleMemoryEntity)], next_uid := 4 }
      nearCupDetection).history 3 = none :=
  c5_resurrection_preserves_id_and_created_at defaultConfig 100
    { entities := [], history := [(3, staleMemoryEntity)], next_uid := 4 }
    nearCupDetection 3 staleMemoryEntity (by decide) (by decide) rfl rfl
    (by decide)

/-- C6: after every `process` call (equivalently: after running any
sequence of frames from a state satisfying the invariants), the key sets
of the active and memory stores are disjoint and duplicate-free, every
entity is stored under its own uid, every stored uid is below the
`next_uid` counter, and the counter never decreases — so ids come from a
strictly increasing counter and are never reused, and no id is ever
assigned to two distinct entities over the tracker's lifetime. -/
theorem c6_id_uniqueness_invariants (cfg : Config) (st : ObjectManager)
    (frames : List FrameInput) (hInv : Inv st) :
    Inv (runFrames cfg st frames) ∧
    st.next_uid ≤ (runFrames cfg st frames).next_uid :=
  runFrames_inv cfg frames st hInv

/-- Witness for C6: the invariants hold after one concrete frame on a
freshly constructed tracker. -/
theorem c6_id_uniqueness_invariants_witness :
    Inv (runFrames defaultConfig (ObjectManager.construct defaultConfig)
      [{ dets := [cupDetection], img_w := 1920, img_h := 1080, now := 100
         sink_ok := true }]) ∧
    (ObjectManager.construct defaultConfig).next_uid ≤
      (runFrames defaultConfig (ObjectManager.construct defaultConfig)
        [{ dets := [cupDetection], img_w := 1920, img_h := 1080, now := 100
           sink_ok := true }]).next_uid :=
  c6_id_uniqueness_invariants defaultConfig
    (ObjectManager.construct defaultConfig)
    [{ dets := [cupDetection], img_w := 1920, img_h := 1080, now := 100
       sink_ok := true }]
    (by decide)

/-- C7: over any sequence of `process` calls, an entity's `label` never
changes between its creation and its deletion, including across the
active → memory → active resurrection cycle: if a uid is associated with
an entity before the run (in either store) and still (or again) after the
run, the two entities carry the same label. -/
theorem c7_label_immutable (cfg : Config) (st : ObjectManager)
    (frames : List FrameInput) (uid : Nat) (e e' : TrackedObject)
    (hInv : Inv st)
    (h1 : lookupBoth st.entities st.history uid = some e)
    (h2 : lookupBoth (runFrames cfg st frames).entities
      (runFrames cfg st frames).history uid = some e') :
    e'.label = e.label := by
  have hInv' := hInv
  obtain ⟨hne, hnh, hdisj, hue, huh, hbe, hbh⟩ := hInv'
  have hklt : uid < st.next_uid := by
    rcases lookupBoth_cases _ _ _ _ h1 with hc | ⟨_, hc⟩
    · exact hbe uid (mem_keysOf_of_lookupE _ _ _ hc)
    · exact hbh uid (mem_keysOf_of_lookupE _ _ _ hc)
  obtain ⟨e₀, he₀, hl⟩ := runFrames_labelSim cfg frames st hInv uid hklt e' h2
  rw [he₀] at h1
  injection h1 with hh
  rw [hl, hh]

/-- Witness for C7: entity 1 ("cup") is matched by a nearby detection in
one concrete frame; the entity found under uid 1 after the call carries
the same label as before. -/
theorem c7_label_immutable_witness :
    ({ uid := 1, label := "cup"
       box := { x := 510, y := 500, w := 50, h := 50 }
       start_time := 10, last_seen_time := 12
       missing_frames := 0, active := true } : TrackedObject).label =
      cupEntity.label :=
  c7_label_immutable defaultConfig cupState
    [{ dets := [nearCupDetection], img_w := 1920, img_h := 1080, now := 12
       sink_ok := true }]
    1 cupEntity
    { uid := 1, label := "cup"
      box := { x := 510, y := 500, w := 50, h := 50 }
      start_time := 10, last_seen_time := 12
      missing_frames := 0, active := true }
    (by decide) rfl (by decide)

/-- C8: the Step-1/Step-2 matching equals the reference greedy procedure
modelled from the spec: the candidate pairs are exactly the
(active entity, detection) pairs with equal label and Euclidean centroid
distance strictly below the tracking gate; they are sorted ascending by
distance (stably) and scanned once, a pair being accepted iff neither its
entity nor its detection was claimed by an earlier accepted pair; and the
entity store after Step 2 is the original store with each accepted
match's entity updated in place with the detection's box
(`last_seen_at := now`, `missing_count := 0`, `active := true`, via
`TrackedObject.update` inside `applyMatch`). -/
theorem c8_greedy_matching_equals_spec (cfg : Config) (ents : EMap)
    (dets : List Detection) (now : Int) :
    specGreedyMatch cfg ents dets =
      acceptedPairs (sortByDist (buildMatches cfg ents dets)) [] [] ∧
    (greedyLoop dets now (sortByDist (buildMatches cfg ents dets))
      (ents, [], [])).1 =
      (acceptedPairs (sortByDist (buildMatches cfg ents dets)) [] []).foldl
        (applyMatch dets now) ents := by
  constructor
  · rw [specGreedyMatch, specCandidates_eq_map, sortByQDist_map, specScan_map]
  · exact greedyLoop_eq_foldl dets now _ ents [] []

/-- C9: if the status-export sink is unwritable, `process` logs the
failure and continues: the returned mapping, the entity stores, the uid
counter and the whole manager state — including the export throttle
`last_json_write`, so the export is retried at the next scheduled
interval — are identical to a run in which the write succeeds; the failed
run records the logged failure exactly when a write was attempted, and
the successful run never records one. -/
theorem c9_export_failure_does_not_affect_tracking (cfg : Config)
    (st : ObjectManager) (dets : List Detection) (w h now : Int) :
    (process cfg st dets w h now false).state =
      (process cfg st dets w h now true).state ∧
    (process cfg st dets w h now false).ret =
      (process cfg st dets w h now true).ret ∧
    (process cfg st dets w h now false).write_attempt =
      (process cfg st dets w h now true).write_attempt ∧
    (process cfg st dets w h now false).write_failed =
      (process cfg st dets w h now false).write_attempt.isSome ∧
    (process cfg st dets w h now true).write_failed = false := by
  by_cases hc : now - st.last_json_write > st.write_interval
  · simp [process, hc]
  · simp [process, hc]

/-- C10: within a single `process` call, memory recovery (Step 3) runs
before memory garbage collection (Step 5): `staleMemoryEntity`, whose
`now - last_seen_time = 80` already exceeds the retention duration 5 at
the start of the call, is nevertheless resurrected into the active set by
an unclaimed same-label detection within `RECOVERY_DISTANCE`, and appears
in the returned mapping, instead of being discarded by GC. -/
theorem c10_recovery_runs_before_gc :
    ((100 : Int) - staleMemoryEntity.last_seen_time >
      defaultConfig.history_duration) ∧
    lookupE (process defaultConfig staleMemoryState [nearCupDetection]
      1920 1080 100 true).ret 3 =
      some { uid := 3, label := "cup"
             box := { x := 510, y := 500, w := 50, h := 50 }
             start_time := 10, last_seen_time := 100
             missing_frames := 1, active := false } ∧
    (process defaultConfig staleMemoryState [nearCupDetection]
      1920 1080 100 true).state.history = [] :=
  ⟨by decide, rfl, rfl⟩

end Tracker
